import Mathlib

/-!
# Verification of the nexke kernel core against its specification

Shallow embedding of the nexke kernel subsystems that the checked claims
touch: the physical page manager (`mm/page.c`), the kernel virtual memory
arena allocator (`mm/kvmm.c`), the MMU fix/unfix layer (`cpu/x86_64/mul.c`),
the interrupt core (`platform/interrupt.c`, `platform/pc/apic.c`), and the
thread manager / scheduler (`task/thread.c`, `task/sched.c`).

Pure functions of the C sources become Lean functions; mutable kernel state
becomes explicit state records threaded through the functions.  Machine
integers are modelled as `Nat` (or `Int` where the C type is signed and can
go negative).  Spinlocks are no-ops on the single-CPU configuration the
sources target and are dropped.  Where a C loop can fail to terminate the
model takes a fuel parameter and exhausting the fuel returns the state
unchanged, mirroring the fact that the hung loop performs no further writes.

Constants that live in headers missing from the source snapshot
(`<nexke/platform.h>`) are modelled from the specification and are marked
`Modelled from the spec:` in their doc comments.
-/

namespace NexNix

/-! ## C2 — page-hash bucket count (`MmInitPage`, page.c lines 547-551)

The C code is
```
mmNumBuckets = 1;
while (mmNumBuckets < (numPfns / 2))
    mmNumBuckets <<= 1;
```
The loop variable is always a power of two; `mmBucketLoop target k`
tracks the exponent `k` of the C variable `mmNumBuckets = 2^k` so that the
recursion measure `target - 2^k` decreases. -/

/-- The `while (mmNumBuckets < numPfns/2) mmNumBuckets <<= 1` loop of
`MmInitPage`, with `mmNumBuckets = 2^k`. -/
def mmBucketLoop (target : Nat) (k : Nat) : Nat :=
  if 2 ^ k < target then mmBucketLoop target (k + 1) else 2 ^ k
termination_by target - 2 ^ k
decreasing_by
  have h2 : 2 ^ k < 2 ^ (k + 1) := Nat.pow_lt_pow_succ (by norm_num)
  omega

/-- `mmNumBuckets` as computed by `MmInitPage` from the usable PFN count. -/
def mmNumBuckets (numPfns : Nat) : Nat := mmBucketLoop (numPfns / 2) 0

/-- The spec's wording for C2 (comparison definition, written from the
specification, not from the source): the greatest power of two that is
less than or equal to `n`; `0` when no power of two is `≤ n`. -/
def greatestPow2Le (n : Nat) : Nat :=
  if n = 0 then 0 else 2 ^ (Nat.log2 n)

/-- Helper: the bucket loop never goes below its starting value `2^k`. -/
theorem mmBucketLoop_ge_start (target k : Nat) : 2 ^ k ≤ mmBucketLoop target k := by
  unfold mmBucketLoop
  split
  · calc 2 ^ k ≤ 2 ^ (k + 1) := Nat.pow_le_pow_right (by norm_num) (Nat.le_succ k)
      _ ≤ mmBucketLoop target (k + 1) := mmBucketLoop_ge_start target (k + 1)
  · exact le_refl _
termination_by target - 2 ^ k
decreasing_by
  have h2 : 2 ^ k < 2 ^ (k + 1) := Nat.pow_lt_pow_succ (by norm_num)
  omega

/-- Helper: the bucket loop result reaches the target. -/
theorem mmBucketLoop_ge (target k : Nat) : target ≤ mmBucketLoop target k := by
  unfold mmBucketLoop
  split
  · exact mmBucketLoop_ge (target) (k + 1)
  · omega
termination_by target - 2 ^ k
decreasing_by
  have h2 : 2 ^ k < 2 ^ (k + 1) := Nat.pow_lt_pow_succ (by norm_num)
  omega

/-- Helper: the bucket loop result is a power of two. -/
theorem mmBucketLoop_pow (target k : Nat) :
    ∃ j, k ≤ j ∧ mmBucketLoop target k = 2 ^ j := by
  unfold mmBucketLoop
  split
  · obtain ⟨j, hj, hex⟩ := mmBucketLoop_pow target (k + 1)
    exact ⟨j, Nat.le_of_succ_le hj, hex⟩
  · exact ⟨k, le_refl k, rfl⟩
termination_by target - 2 ^ k
decreasing_by
  have h2 : 2 ^ k < 2 ^ (k + 1) := Nat.pow_lt_pow_succ (by norm_num)
  omega

/-- Helper: the bucket loop result is minimal among powers of two `≥ target`
with exponent `≥ k`. -/
theorem mmBucketLoop_min (target k : Nat) :
    ∀ j, k ≤ j → target ≤ 2 ^ j → mmBucketLoop target k ≤ 2 ^ j := by
  intro j hkj htj
  unfold mmBucketLoop
  split
  · rename_i hlt
    have hkj' : k + 1 ≤ j := by
      rcases Nat.eq_or_lt_of_le hkj with h | h
      · subst h; omega
      · omega
    exact mmBucketLoop_min target (k + 1) j hkj' htj
  · exact Nat.pow_le_pow_right (by norm_num) hkj
termination_by target - 2 ^ k
decreasing_by
  have h2 : 2 ^ k < 2 ^ (k + 1) := Nat.pow_lt_pow_succ (by norm_num)
  omega

/-- C2 counterexample: with 12 usable page frames the code yields 8 buckets,
while the claim's "greatest power of two ≤ pages/2" is 4.  (The in-code
comment agrees with the code: "We set it equal to the power of two greater
than half the number of pages".) -/
theorem mmNumBuckets_not_greatest_pow2 :
    mmNumBuckets 12 = 8 ∧ greatestPow2Le (12 / 2) = 4 ∧
      mmNumBuckets 12 ≠ greatestPow2Le (12 / 2) := by
  refine ⟨?_, by norm_num [greatestPow2Le, Nat.log2], ?_⟩
  · unfold mmNumBuckets
    rw [mmBucketLoop, if_pos (by norm_num)]
    rw [mmBucketLoop, if_pos (by norm_num)]
    rw [mmBucketLoop, if_pos (by norm_num)]
    rw [mmBucketLoop, if_neg (by norm_num)]
    norm_num
  · unfold mmNumBuckets
    rw [mmBucketLoop, if_pos (by norm_num)]
    rw [mmBucketLoop, if_pos (by norm_num)]
    rw [mmBucketLoop, if_pos (by norm_num)]
    rw [mmBucketLoop, if_neg (by norm_num)]
    norm_num [greatestPow2Le, Nat.log2]

/-- C2 (amended): after PM initialization the page-hash bucket count equals
the least power of two that is greater than or equal to `pages / 2`
(integer division): it is a power of two, at least `pages / 2`, and no
larger than any power of two `≥ pages / 2`. -/
theorem mmNumBuckets_least_pow2_ge_half (pages : Nat) :
    (∃ j, mmNumBuckets pages = 2 ^ j) ∧
      pages / 2 ≤ mmNumBuckets pages ∧
      (∀ j, pages / 2 ≤ 2 ^ j → mmNumBuckets pages ≤ 2 ^ j) := by
  refine ⟨?_, mmBucketLoop_ge _ 0, ?_⟩
  · obtain ⟨j, _, hex⟩ := mmBucketLoop_pow (pages / 2) 0
    exact ⟨j, hex⟩
  · intro j hj
    exact mmBucketLoop_min (pages / 2) 0 j (Nat.zero_le j) hj

/-- Witness for C2's amended theorem at `pages = 12`, `j = 3`. -/
theorem mmNumBuckets_least_pow2_witness :
    12 / 2 ≤ mmNumBuckets 12 ∧ mmNumBuckets 12 ≤ 2 ^ 3 := by
  obtain ⟨_, hge, hmin⟩ := mmNumBuckets_least_pow2_ge_half 12
  exact ⟨hge, hmin 3 (by norm_num)⟩

/-! ## C4 — `TskClearWait` (thread.c lines 236-253)

Wait-object results (`task.h`): `TSK_WAITOBJ_IN_PROG 0`, `SUCCESS 1`,
`TIMEOUT 2`.  The fields of the waiter thread that `TskClearWait` touches
(`waitAsserted`, the registration state of its `timeout` time event) are
inlined into the wait-object record. -/

def TSK_WAITOBJ_IN_PROG : Nat := 0
def TSK_WAITOBJ_SUCCESS : Nat := 1
def TSK_WAITOBJ_TIMEOUT : Nat := 2

/-- A `TskWaitObj_t` together with the two waiter-thread fields that
`TskClearWait` reads or writes. -/
structure TskWaitObj where
  timeout : Nat            -- `waitObj->timeout` (ktime_t; 0 = no timeout)
  result : Nat             -- `waitObj->result`
  waiterAsserted : Nat     -- `waitObj->waiter->waitAsserted`
  waiterEventReg : Bool    -- waiter's `timeout` time event is registered
deriving DecidableEq

/-- `TskClearWait(waitObj, result)`.  `TskThreadCheckAssert` spins until
`waitAsserted` is zero; a nonzero value makes the C call spin forever, which
the model reports as `none`.  Otherwise the returned boolean and the updated
state are produced exactly as in the source: an already-settled result
returns `false` with no writes; otherwise the pending time event is
de-registered when the new result is not `TIMEOUT` and a timeout was set,
and the result is stored. -/
def TskClearWait (w : TskWaitObj) (result : Nat) : Option (Bool × TskWaitObj) :=
  if w.waiterAsserted ≠ 0 then none
  else if w.result ≠ TSK_WAITOBJ_IN_PROG then some (false, w)
  else
    let w1 := if result ≠ TSK_WAITOBJ_TIMEOUT ∧ w.timeout ≠ 0 then
                { w with waiterEventReg := false }
              else w
    some (true, { w1 with result := result })

/-- C4: `TskClearWait(w, r)` succeeds (returns `true`, storing `r`) exactly
when `w.result` was `IN_PROG` at entry; on failure the state is unchanged;
on success by a non-timeout waker with a timeout pending, the waiter's time
event is de-registered; and of two sequential (racing) callers exactly the
first succeeds, the second observing a settled result. -/
theorem tskClearWait_handoff (w : TskWaitObj) (r r2 : Nat)
    (hassert : w.waiterAsserted = 0) :
    ∃ b w', TskClearWait w r = some (b, w') ∧
      (b = true ↔ w.result = TSK_WAITOBJ_IN_PROG) ∧
      (b = false → w' = w) ∧
      (b = true → w'.result = r) ∧
      (b = true → r ≠ TSK_WAITOBJ_TIMEOUT → w.timeout ≠ 0 →
        w'.waiterEventReg = false) ∧
      (b = true → r ≠ TSK_WAITOBJ_IN_PROG →
        TskClearWait w' r2 = some (false, w')) := by
  unfold TskClearWait
  rw [if_neg (by simp [hassert])]
  by_cases hres : w.result ≠ TSK_WAITOBJ_IN_PROG
  · rw [if_pos hres]
    refine ⟨false, w, rfl, by simp [hres], fun _ => rfl, by simp, by simp, by simp⟩
  · rw [if_neg hres]
    push_neg at hres
    by_cases hdereg : r ≠ TSK_WAITOBJ_TIMEOUT ∧ w.timeout ≠ 0
    · refine ⟨true, _, by rw [if_pos hdereg], by simp [hres], by simp, fun _ => rfl,
        fun _ _ _ => rfl, fun _ hr => ?_⟩
      rw [if_neg (by simp [hassert]), if_pos (by simpa using hr)]
    · refine ⟨true, _, by rw [if_neg hdereg], by simp [hres], by simp, fun _ => rfl,
        fun _ hrt hto => absurd ⟨hrt, hto⟩ hdereg, fun _ hr => ?_⟩
      rw [if_neg (by simp [hassert]), if_pos (by simpa using hr)]

/-- Witness for C4: a concrete in-progress wait with a 5-tick timeout,
cleared with `SUCCESS` and then raced by a `TIMEOUT` clear. -/
theorem tskClearWait_handoff_witness :
    ∃ b w', TskClearWait ⟨5, TSK_WAITOBJ_IN_PROG, 0, true⟩ TSK_WAITOBJ_SUCCESS
        = some (b, w') ∧ b = true ∧ w'.result = TSK_WAITOBJ_SUCCESS ∧
      w'.waiterEventReg = false ∧
      TskClearWait w' TSK_WAITOBJ_TIMEOUT = some (false, w') := by
  obtain ⟨b, w', heq, hiff, _, hset, hdereg, hrace⟩ :=
    tskClearWait_handoff ⟨5, TSK_WAITOBJ_IN_PROG, 0, true⟩
      TSK_WAITOBJ_SUCCESS TSK_WAITOBJ_TIMEOUT rfl
  have hb : b = true := hiff.mpr rfl
  exact ⟨b, w', heq, hb, hset hb, hdereg hb (by decide) (by decide),
    hrace hb (by decide)⟩

/-! ## C5 — `MmFreePage` (page.c lines 256-275)

Page flags from `mm.h`. -/

def MM_PAGE_FREE : Nat := 1
def MM_PAGE_IN_OBJECT : Nat := 2
def MM_PAGE_UNUSABLE : Nat := 4
def MM_PAGE_ALLOCED : Nat := 8
def MM_PAGE_GUARD : Nat := 16
def MM_PAGE_FIXED : Nat := 32

/-- The fields of `MmPage_t` that `MmFreePage` reads or writes.
`hasZone` models `page->zone != NULL`. -/
structure MmPage where
  pfn : Nat
  flags : Nat
  fixCount : Int
  hasZone : Bool
deriving DecidableEq

/-- The owning zone's free list (front first, as pfns) and free counter. -/
structure MmZoneState where
  freeList : List Nat
  freeCount : Nat
deriving DecidableEq

/-- Outcome of `MmFreePage`: a panic, a release of a forged (zoneless
UNUSABLE) page structure to the fake-page cache, or a normal free carrying
the updated page, zone, and global `mmFreePages` counter. -/
inductive FreePageResult where
  | panic (msg : String)
  | cacheFreed
  | freed (page : MmPage) (zone : MmZoneState) (mmFreePages : Nat)
deriving DecidableEq

/-- `MmFreePage(page)`, threading the owning zone and the global
`mmFreePages` counter. -/
def MmFreePage (page : MmPage) (zone : MmZoneState) (mmFreePages : Nat) :
    FreePageResult :=
  if page.fixCount ≠ 0 then .panic "nexke: cant free fixed page"
  else if page.flags &&& MM_PAGE_UNUSABLE ≠ 0 ∧ page.hasZone = false then
    .cacheFreed
  else
    .freed { page with flags := MM_PAGE_FREE }
      { zone with freeList := page.pfn :: zone.freeList,
                  freeCount := zone.freeCount + 1 }
      (mmFreePages + 1)

/-- C5 counterexample: `MmFreePage` on a page that is already `FREE` (and
already sitting on the zone free list) does not panic; it pushes the page a
second time and increments both counters — there is no double-free check in
the code. -/
theorem mmFreePage_double_free_silent :
    MmFreePage ⟨7, MM_PAGE_FREE, 0, true⟩ ⟨[7], 1⟩ 1 =
      .freed ⟨7, MM_PAGE_FREE, 0, true⟩ ⟨[7, 7], 2⟩ 2 := by
  decide

/-- C5 (amended): `MmFreePage` panics exactly when the page's fix count is
nonzero; it performs no double-free check.  On any unfixed page that is not
a zoneless `UNUSABLE` page (in particular on any unfixed non-`UNUSABLE`
page, even one already `FREE`) it pushes the page onto its owning zone's
free list, sets its state to `FREE`, and increments the zone and global
free counters by one. -/
theorem mmFreePage_amended (page : MmPage) (zone : MmZoneState) (n : Nat) :
    (page.fixCount ≠ 0 →
      MmFreePage page zone n = .panic "nexke: cant free fixed page") ∧
    (page.fixCount = 0 →
      ¬(page.flags &&& MM_PAGE_UNUSABLE ≠ 0 ∧ page.hasZone = false) →
      MmFreePage page zone n =
        .freed { page with flags := MM_PAGE_FREE }
          { zone with freeList := page.pfn :: zone.freeList,
                      freeCount := zone.freeCount + 1 } (n + 1)) := by
  constructor
  · intro hfix
    unfold MmFreePage
    rw [if_pos hfix]
  · intro hfix hnotfake
    unfold MmFreePage
    rw [if_neg (by simp [hfix]), if_neg hnotfake]

/-- Witness for C5's amended theorem: the panic branch on a fixed page and
the free branch on an ordinary allocated page. -/
theorem mmFreePage_amended_witness :
    MmFreePage ⟨3, MM_PAGE_ALLOCED, 2, true⟩ ⟨[], 0⟩ 0 =
        .panic "nexke: cant free fixed page" ∧
    MmFreePage ⟨4, MM_PAGE_ALLOCED, 0, true⟩ ⟨[9], 1⟩ 5 =
        .freed ⟨4, MM_PAGE_FREE, 0, true⟩ ⟨[4, 9], 2⟩ 6 := by
  constructor
  · exact (mmFreePage_amended ⟨3, MM_PAGE_ALLOCED, 2, true⟩ ⟨[], 0⟩ 0).1 (by decide)
  · exact (mmFreePage_amended ⟨4, MM_PAGE_ALLOCED, 0, true⟩ ⟨[9], 1⟩ 5).2
      (by decide) (by decide)

/-! ## Interrupt core (C3, C9)

The hardware-interrupt flag and mode constants live in `<nexke/platform.h>`,
which is not part of the source snapshot; only their uses are.  They are
modelled from the spec as distinct bits / small enumerators. -/

/-- Modelled from the spec: `PLT_HWINT_CHAINED` from the missing
`<nexke/platform.h>` (record is part of a chain of length ≥ 2). -/
def PLT_HWINT_CHAINED : Nat := 1

/-- Modelled from the spec: `PLT_HWINT_ACTIVE_LOW` from the missing
`<nexke/platform.h>` (polarity flag).  Modelled as a flag bit above bit 0. -/
def PLT_HWINT_ACTIVE_LOW : Nat := 2

/-- Modelled from the spec: `PLT_HWINT_NON_CHAINABLE` from the missing
`<nexke/platform.h>`. -/
def PLT_HWINT_NON_CHAINABLE : Nat := 4

/-- Modelled from the spec: `PLT_HWINT_INTERNAL` from the missing
`<nexke/platform.h>`. -/
def PLT_HWINT_INTERNAL : Nat := 8

/-- Modelled from the spec: `PLT_HWINT_FORCE_IPL` from the missing
`<nexke/platform.h>`. -/
def PLT_HWINT_FORCE_IPL : Nat := 16

/-- Modelled from the spec: `PLT_MODE_LEVEL` from the missing
`<nexke/platform.h>`. -/
def PLT_MODE_LEVEL : Nat := 0

/-- Modelled from the spec: `PLT_MODE_EDGE` from the missing
`<nexke/platform.h>`. -/
def PLT_MODE_EDGE : Nat := 1

/-- Modelled from the spec: `PLT_GSI_INTERNAL` from the missing
`<nexke/platform.h>` (sentinel GSI for internally managed interrupts). -/
def PLT_GSI_INTERNAL : Nat := 4294967295

/-- The fields of `NkHwInterrupt_t` that `PltInitInterrupt`,
`PltInitInternalInt` and the chain-compatibility code touch.  `handler` is
an opaque identifier; `ipl_t` is a signed C `int`, hence `Int`. -/
structure NkHwInterrupt where
  handler : Nat
  gsi : Nat
  vector : Int
  ipl : Int
  mode : Nat
  flags : Nat
deriving DecidableEq

/-- `PltInitInterrupt` (interrupt.c lines 197-211): stores the arguments and
bumps an IPL of 0 to 1. -/
def PltInitInterrupt (hwInt : NkHwInterrupt) (handler : Nat) (gsi : Nat)
    (ipl : Int) (mode : Nat) (flags : Nat) : NkHwInterrupt :=
  let h1 := { hwInt with handler := handler, gsi := gsi, ipl := ipl }
  let h2 := if h1.ipl = 0 then { h1 with ipl := h1.ipl + 1 } else h1
  { h2 with mode := mode, flags := flags }

/-- `PltInitInternalInt` (interrupt.c lines 214-229): like
`PltInitInterrupt` but the GSI is the internal sentinel, the vector comes
from the argument, and the `INTERNAL` flag is ORed in. -/
def PltInitInternalInt (hwInt : NkHwInterrupt) (handler : Nat) (vector : Int)
    (ipl : Int) (mode : Nat) (flags : Nat) : NkHwInterrupt :=
  let h1 := { hwInt with
              handler := handler
              gsi := PLT_GSI_INTERNAL
              vector := vector
              ipl := ipl }
  let h2 := if h1.ipl = 0 then { h1 with ipl := h1.ipl + 1 } else h1
  { h2 with mode := mode, flags := flags ||| PLT_HWINT_INTERNAL }

/-- A default-initialized hardware-interrupt record. -/
def hwIntZero : NkHwInterrupt := ⟨0, 0, 0, 0, 0, 0⟩

/-- C9 counterexample: the claim fails in two places.  `PltInitInternalInt`
does not store the flags verbatim (it ORs in `PLT_HWINT_INTERNAL`), and a
negative requested IPL (legal for the signed `ipl_t`) is stored unchanged,
so the resulting `ipl` is not at least 1. -/
theorem pltInitInterrupt_claim_false :
    (PltInitInternalInt hwIntZero 0 3 5 0 0).flags ≠ 0 ∧
      (PltInitInterrupt hwIntZero 0 3 (-2) 0 0).ipl < 1 := by
  constructor
  · decide
  · norm_num [PltInitInterrupt, hwIntZero]

/-- C9 (amended): after `PltInitInterrupt` or `PltInitInternalInt` the
record's `ipl` is never 0: a requested IPL of 0 is promoted to 1, any other
requested IPL (including a negative one) is stored unchanged, so `ipl ≥ 1`
holds whenever the request is non-negative.  The handler, gsi (resp.
vector) and mode are stored verbatim; `PltInitInterrupt` stores the flags
verbatim, while `PltInitInternalInt` stores them with `PLT_HWINT_INTERNAL`
ORed in and sets the gsi to `PLT_GSI_INTERNAL`. -/
theorem pltInitInterrupt_amended (hwInt : NkHwInterrupt) (handler : Nat)
    (gsi : Nat) (vector : Int) (ipl : Int) (mode : Nat) (flags : Nat) :
    (let r := PltInitInterrupt hwInt handler gsi ipl mode flags
     r.ipl ≠ 0 ∧ (ipl = 0 → r.ipl = 1) ∧ (ipl ≠ 0 → r.ipl = ipl) ∧
       (0 ≤ ipl → 1 ≤ r.ipl) ∧ r.handler = handler ∧ r.gsi = gsi ∧
       r.mode = mode ∧ r.flags = flags) ∧
    (let r := PltInitInternalInt hwInt handler vector ipl mode flags
     r.ipl ≠ 0 ∧ (ipl = 0 → r.ipl = 1) ∧ (ipl ≠ 0 → r.ipl = ipl) ∧
       (0 ≤ ipl → 1 ≤ r.ipl) ∧ r.handler = handler ∧ r.vector = vector ∧
       r.gsi = PLT_GSI_INTERNAL ∧ r.mode = mode ∧
       r.flags = flags ||| PLT_HWINT_INTERNAL) := by
  constructor
  · by_cases h : ipl = 0
    · simp [PltInitInterrupt, h]
    · simp [PltInitInterrupt, h]
      omega
  · by_cases h : ipl = 0
    · simp [PltInitInternalInt, h]
    · simp [PltInitInternalInt, h]
      omega

/-- Witness for C9's amended theorem at a concrete record. -/
theorem pltInitInterrupt_amended_witness :
    (PltInitInterrupt hwIntZero 9 11 0 1 2).ipl = 1 ∧
      (PltInitInternalInt hwIntZero 9 40 6 0 0).ipl = 6 ∧
      (PltInitInternalInt hwIntZero 9 40 6 0 0).flags = PLT_HWINT_INTERNAL := by
  obtain ⟨⟨_, hz, _, _, _, _, _, _⟩, _⟩ :=
    pltInitInterrupt_amended hwIntZero 9 11 40 0 1 2
  obtain ⟨_, ⟨_, _, hnz, _, _, _, _, _, hfl⟩⟩ :=
    pltInitInterrupt_amended hwIntZero 9 0 40 6 0 0
  refine ⟨hz rfl, by rw [hnz (by norm_num)], by rw [hfl]; decide⟩

/-! ## C3 — line sharing (`PltConnectInterrupt`, interrupt.c lines 232-266)

`PltAreIntsCompatible` (interrupt.c lines 136-144) contains the C
expression
```
int1->flags & PLT_HWINT_ACTIVE_LOW != int2->flags & PLT_HWINT_ACTIVE_LOW
```
in which `!=` binds tighter than `&`, so it parses as
`(int1->flags & (PLT_HWINT_ACTIVE_LOW != int2->flags)) & PLT_HWINT_ACTIVE_LOW`.
The translation preserves that precedence.

The join path is modelled end to end for one GSI line: the chain push
(`pltChainInterrupt`), the controller connect (`PltApicConnectInterrupt`,
apic.c lines 497-546; `PltGicConnectInterrupt` is textually identical),
and `PltConnectInterrupt` itself with its installed-vector check.  The
vector allocator (`pltApicMapInterrupt`) and the chain re-vectoring
(`PltRemapInterrupt`) touch the APIC vector-class tables and the whole
interrupt table, so they enter the model as explicit oracle parameters
(`allocVector`: the vector the allocator would hand out, `none` for
failure; `remapOk`: whether the remap succeeds); the interrupt-table
occupancy at the `PltGetInterrupt` call is the caller-supplied
`installed`. -/

/-- `PltAreIntsCompatible` with the C operator precedence preserved: the
`!=` sub-expression yields 0 or 1, which is then ANDed with the flags and
the `ACTIVE_LOW` mask. -/
def PltAreIntsCompatible (int1 int2 : NkHwInterrupt) : Bool :=
  if int1.mode ≠ int2.mode ∨
      (int1.flags &&& (if PLT_HWINT_ACTIVE_LOW ≠ int2.flags then 1 else 0))
          &&& PLT_HWINT_ACTIVE_LOW ≠ 0 then
    false
  else true

/-- `pltChainInterrupt` (interrupt.c lines 93-115): push the record to the
chain front; a record entering a chain of length ≥ 2 gets `CHAINED`, and
when the length becomes exactly 2 the previous front gets `CHAINED` too. -/
def pltChainInterruptF (chain : List NkHwInterrupt) (hwInt : NkHwInterrupt) :
    List NkHwInterrupt :=
  match chain with
  | [] => [hwInt]
  | prev :: rest =>
    let hw1 := { hwInt with flags := hwInt.flags ||| PLT_HWINT_CHAINED }
    match rest with
    | [] => hw1 :: [{ prev with flags := prev.flags ||| PLT_HWINT_CHAINED }]
    | _ => hw1 :: prev :: rest

/-- `PltApicConnectInterrupt` (apic.c lines 497-546) on the record's line:
with the chain non-empty, refuse a `NON_CHAINABLE`, incompatible, or
edge-triggered joiner (-1, modelled as `none`); a `FORCE_IPL` joiner
triggers the remap path (fails on a no-remap chain, on allocation failure,
or on remap failure); otherwise the joiner inherits the chain head's IPL
and vector.  With the chain empty, allocate a vector.  On success the
chain's no-remap flag is set iff the record forced its IPL.  Returns
(returned vector, updated record, updated no-remap flag). -/
def pltApicConnectInterruptF (allocVector : Option Int) (remapOk : Bool)
    (chain : List NkHwInterrupt) (noRemap : Bool) (intObj : NkHwInterrupt) :
    Option (Int × NkHwInterrupt × Bool) :=
  match chain with
  | chainFront :: _ =>
    if intObj.flags &&& PLT_HWINT_NON_CHAINABLE ≠ 0 ∨
        PltAreIntsCompatible intObj chainFront = false ∨
        intObj.mode = PLT_MODE_EDGE then none
    else if intObj.flags &&& PLT_HWINT_FORCE_IPL ≠ 0 then
      if noRemap then none
      else
        match allocVector with
        | none => none
        | some v =>
          if remapOk then some (v, { intObj with vector := v }, true)
          else none
    else
      some (chainFront.vector,
        { intObj with ipl := chainFront.ipl, vector := chainFront.vector },
        noRemap)
  | [] =>
    match allocVector with
    | none => none
    | some v =>
      some (v, { intObj with vector := v },
        noRemap || decide (intObj.flags &&& PLT_HWINT_FORCE_IPL ≠ 0))

/-- The observable outcome of `PltConnectInterrupt`.  `oobRead` is the
unchecked `-1` a failed controller connect returns: `PltGetInterrupt (-1)`
passes its `vector < NK_MAX_INTS` assert and reads `nkIntTable[-1]`. -/
inductive PltConnectResult where
  | retNull
  | chained (chain : List NkHwInterrupt) (vector : Int)
  | fresh (chain : List NkHwInterrupt) (vector : Int)
  | oobRead
deriving DecidableEq

/-- `PltConnectInterrupt` (interrupt.c lines 232-266) on one line:
reject an IPL above `PLT_IPL_TIMER` (a constant of the missing
`<nexke/platform.h>`, passed as `iplTimer`); pick the vector through the
controller for an external record and from the record itself for an
`INTERNAL` one; then, if that vector's interrupt object is already
installed, line 251 allows the join only for a chainable `INTERNAL`
record — every external record gets NULL — and otherwise a fresh object
is installed and the chain started. -/
def PltConnectInterruptF (iplTimer : Int) (allocVector : Option Int)
    (remapOk : Bool) (installed : Int → Bool) (chain : List NkHwInterrupt)
    (noRemap : Bool) (hwInt : NkHwInterrupt) : PltConnectResult :=
  if hwInt.ipl > iplTimer then .retNull
  else
    match
      (if hwInt.flags &&& PLT_HWINT_INTERNAL = 0 then
        pltApicConnectInterruptF allocVector remapOk chain noRemap hwInt
      else some (hwInt.vector, hwInt, noRemap)) with
    | none => .oobRead
    | some (vector, hwInt2, _) =>
      if installed vector then
        if hwInt2.flags &&& PLT_HWINT_NON_CHAINABLE ≠ 0 ∨
            hwInt2.flags &&& PLT_HWINT_INTERNAL = 0 then .retNull
        else .chained (pltChainInterruptF chain hwInt2) vector
      else .fresh (pltChainInterruptF chain hwInt2) vector

/-- The claim's (and spec section "Chain compatibility") wording for C3
(comparison definition, written from the spec, not from the source): two
records may share a line iff neither sets `NON_CHAINABLE`, their
polarities are equal, their modes are equal, and the mode is
level-triggered. -/
def specMayShare (a b : NkHwInterrupt) : Prop :=
  a.flags &&& PLT_HWINT_NON_CHAINABLE = 0 ∧
  b.flags &&& PLT_HWINT_NON_CHAINABLE = 0 ∧
  a.flags &&& PLT_HWINT_ACTIVE_LOW = b.flags &&& PLT_HWINT_ACTIVE_LOW ∧
  a.mode = b.mode ∧ a.mode = PLT_MODE_LEVEL

instance specMayShareDec (a b : NkHwInterrupt) :
    Decidable (specMayShare a b) :=
  inferInstanceAs (Decidable
    (a.flags &&& PLT_HWINT_NON_CHAINABLE = 0 ∧
     b.flags &&& PLT_HWINT_NON_CHAINABLE = 0 ∧
     a.flags &&& PLT_HWINT_ACTIVE_LOW = b.flags &&& PLT_HWINT_ACTIVE_LOW ∧
     a.mode = b.mode ∧ a.mode = PLT_MODE_LEVEL))

/-- The installed record of the S4 scenario: external, GSI 11, vector 40,
IPL 8, level-triggered, active-low. -/
def exShareA : NkHwInterrupt :=
  ⟨1, 11, 40, 8, PLT_MODE_LEVEL, PLT_HWINT_ACTIVE_LOW⟩

/-- The joiner of the S4 scenario: initialized by `PltInitInterrupt` with
attributes matching `exShareA` exactly. -/
def exShareB : NkHwInterrupt :=
  PltInitInterrupt hwIntZero 2 11 8 PLT_MODE_LEVEL PLT_HWINT_ACTIVE_LOW

/-- An internal record whose vector collides with the installed vector 40
and whose mode (edge) and polarity both differ from the installed line's. -/
def exShareC : NkHwInterrupt :=
  PltInitInternalInt hwIntZero 3 40 8 PLT_MODE_EDGE 0

/-- The interrupt-table occupancy of the scenario: only vector 40 is
installed. -/
def exShareTable : Int → Bool := fun v => v == 40

/-- **C3**: the spec (section 4.4 and test S4) requires a second external
record with matching polarity, mode and chainability to join the line and
receive the installed vector; the code cannot do it.  The controller gate
approves `exShareB` and hands back the chain's vector 40 — but
`PltConnectInterrupt` line 251 then demands `PLT_HWINT_INTERNAL` of the
joiner and returns NULL, so no external record ever shares a line.  An
`INTERNAL` record, by contrast, joins the installed vector with no mode,
polarity or head-chainability test at all (edge-triggered `exShareC`
joins).  (The polarity test itself is also vacuous: the precedence slip in
`PltAreIntsCompatible` line 139 zeroes the comparison.) -/
theorem pltConnectInterrupt_no_external_share :
    specMayShare exShareB exShareA ∧
    pltApicConnectInterruptF (some 41) true [exShareA] false exShareB =
      some (40, ⟨2, 11, 40, 8, PLT_MODE_LEVEL, PLT_HWINT_ACTIVE_LOW⟩,
        false) ∧
    PltConnectInterruptF 8 (some 41) true exShareTable [exShareA] false
      exShareB = .retNull ∧
    ¬ specMayShare exShareC exShareA ∧
    PltConnectInterruptF 8 (some 41) true exShareTable [] false exShareC =
      .chained [⟨3, PLT_GSI_INTERNAL, 40, 8, PLT_MODE_EDGE,
        PLT_HWINT_INTERNAL⟩] 40 := by
  decide

/-! ## C7 — `MmFixPage`/`MmUnfixPage` round trip (page.c lines 461-492,
`MmMulFixPage`/`MmMulUnfixPage` from cpu/x86_64/mul.c lines 480-546)

The PTE is a 64-bit word; `x &= ~PF_F` is modelled width-independently as
`x ^^^ (x &&& PF_F)`, which clears exactly the `PF_F` bit. -/

/-- Fixed bit of an x86_64 PTE (`PF_F`, cpu/x86_64/mul.h line 38:
`1ULL << 10`). -/
def PF_F : Nat := 2 ^ 10

/-- `*pte &= ~(PF_F)` on a 64-bit PTE: clear exactly the `PF_F` bit. -/
def mulClearFixedBit (x : Nat) : Nat := x ^^^ (x &&& PF_F)

/-- One entry of a page's back-mapping list (`MmPageMap_t`): the owning
address space, whether `MmPtabWalk` reaches the leaf table (the C code
skips the entry via `goto next` when it does not), and the leaf PTE
value. -/
structure MmPageMapEntry where
  spaceId : Nat
  walkOk : Bool
  pte : Nat
deriving DecidableEq

/-- `MmMulFixPage` (x86_64/mul.c lines 480-511): for every back-mapping
whose walk succeeds and whose PTE is nonzero, bump the space's `numFixed`
statistic when the bit was clear, then set the bit.  The statistics are a
map from space id to its `stats.numFixed`. -/
def MmMulFixPage : List MmPageMapEntry → (Nat → Int) →
    List MmPageMapEntry × (Nat → Int)
  | [], stats => ([], stats)
  | m :: rest, stats =>
    if m.walkOk = false ∨ m.pte = 0 then
      let r := MmMulFixPage rest stats
      (m :: r.1, r.2)
    else
      let stats1 := if m.pte &&& PF_F = 0 then
          Function.update stats m.spaceId (stats m.spaceId + 1) else stats
      let r := MmMulFixPage rest stats1
      ({ m with pte := m.pte ||| PF_F } :: r.1, r.2)

/-- `MmMulUnfixPage` (x86_64/mul.c lines 514-546): mirror image of
`MmMulFixPage`, decrementing `numFixed` when the bit was set and clearing
the bit. -/
def MmMulUnfixPage : List MmPageMapEntry → (Nat → Int) →
    List MmPageMapEntry × (Nat → Int)
  | [], stats => ([], stats)
  | m :: rest, stats =>
    if m.walkOk = false ∨ m.pte = 0 then
      let r := MmMulUnfixPage rest stats
      (m :: r.1, r.2)
    else
      let stats1 := if m.pte &&& PF_F ≠ 0 then
          Function.update stats m.spaceId (stats m.spaceId - 1) else stats
      let r := MmMulUnfixPage rest stats1
      ({ m with pte := mulClearFixedBit m.pte } :: r.1, r.2)

/-- The state `MmFixPage`/`MmUnfixPage` observe and mutate: the page's
flags, its fix count (`int`, hence `Int`), its back-mapping list, the
global `mmFixedPages` counter, and the per-space `numFixed` statistics. -/
structure PageFixState where
  flags : Nat
  fixCount : Int
  maps : List MmPageMapEntry
  mmFixedPages : Int
  stats : Nat → Int

/-- `MmFixPage` (page.c lines 461-475). -/
def MmFixPage (s : PageFixState) : PageFixState :=
  if s.flags &&& MM_PAGE_UNUSABLE ≠ 0 then s
  else
    let s1 := { s with fixCount := s.fixCount + 1 }
    if s1.flags &&& MM_PAGE_FIXED = 0 then
      let r := MmMulFixPage s1.maps s1.stats
      { s1 with
        flags := s1.flags ||| MM_PAGE_FIXED
        mmFixedPages := s1.mmFixedPages + 1
        maps := r.1
        stats := r.2 }
    else s1

/-- `MmUnfixPage` (page.c lines 478-492).  `page->flags &= ~(MM_PAGE_FIXED)`
is the same clear-one-bit pattern as for PTEs. -/
def MmUnfixPage (s : PageFixState) : PageFixState :=
  if s.flags &&& MM_PAGE_UNUSABLE ≠ 0 then s
  else
    let s1 := { s with fixCount := s.fixCount - 1 }
    if s1.fixCount = 0 then
      let r := MmMulUnfixPage s1.maps s1.stats
      { s1 with
        flags := s1.flags ^^^ (s1.flags &&& MM_PAGE_FIXED)
        mmFixedPages := s1.mmFixedPages - 1
        maps := r.1
        stats := r.2 }
    else s1

/-- The spec's data-model invariant relating the `FIXED` flag, the fix
count, and the back-mapped PTEs (spec §3.1 and testable property 3): the
flag is set exactly when the count is positive, and an unfixed page has no
back-mapping with the PTE fixed bit set. -/
def FixConsistent (s : PageFixState) : Prop :=
  0 ≤ s.fixCount ∧
  (s.flags &&& MM_PAGE_FIXED = 0 ↔ s.fixCount = 0) ∧
  (s.fixCount = 0 → ∀ m ∈ s.maps, m.pte &&& PF_F = 0)

/-- Helper: a nonzero `&&&` with a power of two means the bit is set. -/
theorem and_two_pow_eq_zero_iff (x i : Nat) :
    x &&& 2 ^ i = 0 ↔ x.testBit i = false := by
  rw [Nat.and_two_pow]
  rcases h : x.testBit i <;> simp [h]

/-- Helper: ORing a clear bit in and then clearing it restores the word. -/
theorem clear_or_two_pow (x i : Nat) (h : x &&& 2 ^ i = 0) :
    (x ||| 2 ^ i) ^^^ ((x ||| 2 ^ i) &&& 2 ^ i) = x := by
  have hx : x.testBit i = false := (and_two_pow_eq_zero_iff x i).mp h
  apply Nat.eq_of_testBit_eq
  intro j
  rcases eq_or_ne i j with hij | hij
  · subst hij
    simp [Nat.testBit_two_pow_self, hx]
  · simp [Nat.testBit_two_pow_of_ne hij]

/-- Helper: ORing a bit into a word makes it nonzero with the bit set. -/
theorem or_two_pow_facts (x i : Nat) :
    x ||| 2 ^ i ≠ 0 ∧ (x ||| 2 ^ i) &&& 2 ^ i ≠ 0 := by
  have hbit : (x ||| 2 ^ i).testBit i = true := by
    simp [Nat.testBit_two_pow_self]
  constructor
  · intro hcon
    rw [hcon] at hbit
    simp [Nat.zero_testBit] at hbit
  · rw [Ne, and_two_pow_eq_zero_iff, hbit]
    simp

/-- Helper, generalized for the stats threading: running the MUL unfix
traversal over a freshly fixed mapping list restores the list, and the
statistics come out shifted by exactly the amount the fix traversal added,
regardless of the statistics the unfix starts from. -/
theorem mmMulUnfix_fix_general (maps : List MmPageMapEntry)
    (hclear : ∀ m ∈ maps, m.pte &&& PF_F = 0) :
    ∀ stats S : Nat → Int,
      (MmMulUnfixPage (MmMulFixPage maps stats).1 S).1 = maps ∧
      ∀ sp, (MmMulUnfixPage (MmMulFixPage maps stats).1 S).2 sp =
        S sp - ((MmMulFixPage maps stats).2 sp - stats sp) := by
  induction maps with
  | nil =>
    intro stats S
    exact ⟨rfl, fun sp => by simp [MmMulFixPage, MmMulUnfixPage]⟩
  | cons m rest ih =>
    intro stats S
    have hm : m.pte &&& PF_F = 0 := hclear m (List.mem_cons_self m rest)
    have hrest : ∀ m' ∈ rest, m'.pte &&& PF_F = 0 :=
      fun m' hm' => hclear m' (List.mem_cons_of_mem m hm')
    by_cases hskip : m.walkOk = false ∨ m.pte = 0
    · simp only [MmMulFixPage, if_pos hskip]
      simp only [MmMulUnfixPage, if_pos hskip]
      obtain ⟨hl, hs⟩ := ih hrest stats S
      exact ⟨by rw [hl], hs⟩
    · have hpte : m.pte ≠ 0 := fun h => hskip (Or.inr h)
      obtain ⟨hnz, hset⟩ := or_two_pow_facts m.pte 10
      simp only [MmMulFixPage, if_neg hskip, if_pos hm]
      have hskip2 : ¬({ m with pte := m.pte ||| PF_F }.walkOk = false ∨
          ({ m with pte := m.pte ||| PF_F } : MmPageMapEntry).pte = 0) := by
        intro hcon
        rcases hcon with hcon | hcon
        · exact hskip (Or.inl hcon)
        · exact hnz hcon
      simp only [MmMulUnfixPage, if_neg hskip2]
      have hsetp : (m.pte ||| PF_F) &&& PF_F ≠ 0 := hset
      rw [if_pos hsetp]
      obtain ⟨hl, hs⟩ := ih hrest
        (Function.update stats m.spaceId (stats m.spaceId + 1))
        (Function.update S m.spaceId (S m.spaceId - 1))
      refine ⟨?_, fun sp => ?_⟩
      · rw [hl]
        have hc : mulClearFixedBit (m.pte ||| PF_F) = m.pte :=
          clear_or_two_pow m.pte 10 hm
        show ({ m with pte := mulClearFixedBit (m.pte ||| PF_F) } : MmPageMapEntry)
            :: rest = m :: rest
        rw [hc]
      · rw [hs sp]
        by_cases hsp : sp = m.spaceId
        · subst hsp
          simp only [Function.update_same]
          omega
        · simp only [Function.update_noteq hsp]

/-- C7: on any page satisfying the fix-count/flag/PTE consistency invariant
(spec §3.1), `MmFixPage` followed by `MmUnfixPage` restores the entire
observable state — fix count, `FIXED` flag, global fixed-page counter,
per-space `numFixed` statistics, and the fixed bit of every back-mapped
PTE; and on an `UNUSABLE` page each call individually changes nothing. -/
theorem mmFixUnfix_roundtrip (s : PageFixState) (h : FixConsistent s) :
    MmUnfixPage (MmFixPage s) = s ∧
      (s.flags &&& MM_PAGE_UNUSABLE ≠ 0 →
        MmFixPage s = s ∧ MmUnfixPage s = s) := by
  obtain ⟨hpos, hiff, hclear⟩ := h
  obtain ⟨flags, fixCount, maps, fixedPages, stats⟩ := s
  simp only at hpos hiff hclear ⊢
  by_cases hun : flags &&& MM_PAGE_UNUSABLE ≠ 0
  · refine ⟨?_, fun _ => ⟨?_, ?_⟩⟩ <;>
      simp only [MmFixPage, MmUnfixPage, if_pos hun]
  · refine ⟨?_, fun hcon => absurd hcon hun⟩
    by_cases hzero : fixCount = 0
    · -- first fix: the FIXED flag is clear, MUL is invoked both ways
      have hflag : flags &&& MM_PAGE_FIXED = 0 := hiff.mpr hzero
      have hun2 : ¬((flags ||| MM_PAGE_FIXED) &&& MM_PAGE_UNUSABLE ≠ 0) := by
        push_neg at hun ⊢
        rw [show MM_PAGE_FIXED = 2 ^ 5 from rfl,
          show MM_PAGE_UNUSABLE = 2 ^ 2 from rfl] at *
        rw [and_two_pow_eq_zero_iff] at hun ⊢
        simp [hun, Nat.testBit_two_pow_of_ne (by norm_num : (5 : Nat) ≠ 2)]
      obtain ⟨hl, hs⟩ := mmMulUnfix_fix_general maps (hclear hzero) stats
        (MmMulFixPage maps stats).2
      have hstats : (MmMulUnfixPage (MmMulFixPage maps stats).1
          (MmMulFixPage maps stats).2).2 = stats := by
        funext sp
        rw [hs sp]
        omega
      have hflags2 : (flags ||| MM_PAGE_FIXED) ^^^
          ((flags ||| MM_PAGE_FIXED) &&& MM_PAGE_FIXED) = flags :=
        clear_or_two_pow flags 5 hflag
      simp [MmFixPage, MmUnfixPage, hun, hun2, hflag, hzero, hl, hstats, hflags2]
    · -- already fixed: neither call reaches the MUL layer
      have hflag : ¬(flags &&& MM_PAGE_FIXED = 0) := fun h => hzero (hiff.mp h)
      have hnz : ¬(fixCount + 1 - 1 = 0) := by omega
      simp only [MmFixPage, MmUnfixPage, if_neg hun, if_neg hflag, if_neg hnz]
      norm_num

/-- Witness for C7 at a concrete consistent page with one live mapping. -/
theorem mmFixUnfix_roundtrip_witness :
    FixConsistent ⟨MM_PAGE_ALLOCED, 0, [⟨1, true, 7⟩], 0, fun _ => 0⟩ ∧
      MmUnfixPage (MmFixPage ⟨MM_PAGE_ALLOCED, 0, [⟨1, true, 7⟩], 0, fun _ => 0⟩)
        = ⟨MM_PAGE_ALLOCED, 0, [⟨1, true, 7⟩], 0, fun _ => 0⟩ := by
  have hc : FixConsistent ⟨MM_PAGE_ALLOCED, 0, [⟨1, true, 7⟩], 0, fun _ => 0⟩ := by
    refine ⟨by norm_num, by decide, fun _ m hm => ?_⟩
    simp only [List.mem_singleton] at hm
    subst hm
    decide
  exact ⟨hc, (mmFixUnfix_roundtrip _ hc).1⟩

/-! ## C10 — `TskCreateThread` (thread.c lines 60-120)

Thread constants from `task.h`. -/

def TSK_POLICY_NORMAL : Nat := 0
def TSK_POLICY_FIFO : Nat := 1
def TSK_POLICY_RR : Nat := 2

def TSK_THREAD_IDLE : Nat := 1
def TSK_THREAD_FIXED_PRIO : Nat := 2
def TSK_THREAD_FIFO : Nat := 4

def TSK_THREAD_READY : Nat := 0
def TSK_THREAD_RUNNING : Nat := 1
def TSK_THREAD_WAITING : Nat := 2
def TSK_THREAD_CREATED : Nat := 3
def TSK_THREAD_TERMINATING : Nat := 4

def TSK_TIMESLICE_LEN : Nat := 6

/-- The fields of `NkThread_t` that `TskCreateThread` initializes and the
claim mentions. -/
structure NkThreadRec where
  tid : Int
  refCount : Nat
  state : Nat
  flags : Nat
  priority : Int
  policy : Nat
  quantum : Nat
deriving DecidableEq

/-- The global state `TskCreateThread` touches: the thread table, the
thread-ID resource arena, and (as live-object counters) the slab-cache
allocations it can acquire and release: thread structures, CPU contexts,
and time events. -/
structure TaskState where
  threadTable : Int → Option NkThreadRec
  arenaFree : List Int
  liveThreadStructs : Nat
  liveContexts : Nat
  liveTimeEvents : Nat

/-- Modelled from the spec: `NkAllocResource` is not under `src/` (only its
declaration in nexke.h is); the spec's resource arena vends IDs from a pool.
Modelled as a free list: allocation pops the front, returning `-1` on
exhaustion. -/
def NkAllocResource : List Int → Int × List Int
  | [] => (-1, [])
  | id :: rest => (id, rest)

/-- Modelled from the spec: `NkFreeResource` returns an ID to the arena
pool (modelled as pushing it back on the free list). -/
def NkFreeResource (arena : List Int) (res : Int) : List Int := res :: arena

/-- `TskCreateThread(entry, arg, name, policy, prio, flags)` (thread.c lines
60-120).  The fallible external allocations — `CpuAllocContext` and
`NkTimeNewEvent` — are represented by the boolean parameters `ctxOk` and
`timeoutOk`; the slab allocation of the thread structure itself is assumed
to succeed (the code does not check it).  Returns the created thread (or
`none`) and the updated global state. -/
def TskCreateThread (s : TaskState) (policy : Nat) (prio : Int) (flags : Nat)
    (ctxOk timeoutOk : Bool) : Option NkThreadRec × TaskState :=
  -- thread = MmCacheAlloc (nkThreadCache)
  let s0 := { s with liveThreadStructs := s.liveThreadStructs + 1 }
  -- tid = NkAllocResource (nkThreadRes)
  let a := NkAllocResource s0.arenaFree
  let tid := a.1
  if tid = -1 then
    -- MmCacheFree (nkThreadCache, thread); return NULL
    (none, { s0 with
             arenaFree := a.2
             liveThreadStructs := s0.liveThreadStructs - 1 })
  else
    let flags1 := if policy = TSK_POLICY_FIFO then
        flags ||| (TSK_THREAD_FIFO ||| TSK_THREAD_FIXED_PRIO)
      else if policy = TSK_POLICY_RR then flags ||| TSK_THREAD_FIXED_PRIO
      else flags
    if ctxOk = false then
      -- NkFreeResource; MmCacheFree; return NULL
      (none, { s0 with
               arenaFree := NkFreeResource a.2 tid
               liveThreadStructs := s0.liveThreadStructs - 1 })
    else
      -- thread->context = CpuAllocContext (...)
      let s1 := { s0 with arenaFree := a.2
                          liveContexts := s0.liveContexts + 1 }
      if timeoutOk = false then
        -- CpuDestroyContext; NkFreeResource; MmCacheFree; return NULL
        (none, { s1 with
                 arenaFree := NkFreeResource s1.arenaFree tid
                 liveContexts := s1.liveContexts - 1
                 liveThreadStructs := s1.liveThreadStructs - 1 })
      else
        let th : NkThreadRec :=
          { tid := tid, refCount := 1, state := TSK_THREAD_CREATED,
            flags := flags1, priority := prio, policy := policy,
            quantum := TSK_TIMESLICE_LEN }
        (some th, { s1 with
                    liveTimeEvents := s1.liveTimeEvents + 1
                    threadTable := Function.update s1.threadTable tid (some th) })

/-- C10: whenever `TskCreateThread` returns null — thread-ID, CPU-context,
or time-event allocation failed — the thread table, the thread-ID arena,
and every live-object count are exactly as before the call (everything
acquired earlier was released); on success the new thread is in state
`CREATED` with reference count 1 and is installed in the thread table under
its TID. -/
theorem tskCreateThread_cleanup (s : TaskState) (policy : Nat) (prio : Int)
    (flags : Nat) (ctxOk timeoutOk : Bool) (hvalid : (-1 : Int) ∉ s.arenaFree) :
    (∀ s', (TskCreateThread s policy prio flags ctxOk timeoutOk).2 = s' →
      (TskCreateThread s policy prio flags ctxOk timeoutOk).1 = none →
      s'.threadTable = s.threadTable ∧ s'.arenaFree = s.arenaFree ∧
        s'.liveThreadStructs = s.liveThreadStructs ∧
        s'.liveContexts = s.liveContexts ∧
        s'.liveTimeEvents = s.liveTimeEvents) ∧
    (∀ th, (TskCreateThread s policy prio flags ctxOk timeoutOk).1 = some th →
      th.state = TSK_THREAD_CREATED ∧ th.refCount = 1 ∧
        (TskCreateThread s policy prio flags ctxOk timeoutOk).2.threadTable th.tid
          = some th) := by
  obtain ⟨tbl, arena, lts, lc, lte⟩ := s
  simp only at hvalid
  rcases arena with _ | ⟨id, rest⟩
  · -- empty arena: NkAllocResource returns -1 and the struct is released
    constructor
    · intro s' hs' _
      rw [← hs']
      simp [TskCreateThread, NkAllocResource]
    · intro th hth
      simp [TskCreateThread, NkAllocResource] at hth
  · have hid : id ≠ -1 := fun h => hvalid (h ▸ List.mem_cons_self id rest)
    rcases ctxOk with _ | _
    · -- context allocation failed: tid freed, struct freed
      constructor
      · intro s' hs' _
        rw [← hs']
        simp [TskCreateThread, NkAllocResource, NkFreeResource, hid]
      · intro th hth
        simp [TskCreateThread, NkAllocResource, hid] at hth
    · rcases timeoutOk with _ | _
      · -- time-event allocation failed: context destroyed, tid freed,
        -- struct freed
        constructor
        · intro s' hs' _
          rw [← hs']
          simp [TskCreateThread, NkAllocResource, NkFreeResource, hid]
        · intro th hth
          simp [TskCreateThread, NkAllocResource, hid] at hth
      · -- success
        constructor
        · intro s' _ hnone
          simp [TskCreateThread, NkAllocResource, hid] at hnone
        · intro th hth
          simp only [TskCreateThread, NkAllocResource, if_neg hid] at hth ⊢
          norm_num at hth ⊢
          rw [← hth]
          simp [Function.update_same, TSK_THREAD_CREATED]

/-- Witness for C10: a failed creation (no time event available) restores a
concrete state, and a successful creation installs the thread. -/
theorem tskCreateThread_cleanup_witness :
    ((TskCreateThread ⟨fun _ => none, [4, 5], 0, 0, 0⟩ TSK_POLICY_NORMAL 10 0
        true false).2.arenaFree = [4, 5] ∧
      (TskCreateThread ⟨fun _ => none, [4, 5], 0, 0, 0⟩ TSK_POLICY_NORMAL 10 0
        true false).2.liveContexts = 0) ∧
    (∀ th, (TskCreateThread ⟨fun _ => none, [4, 5], 0, 0, 0⟩ TSK_POLICY_NORMAL
        10 0 true true).1 = some th → th.refCount = 1) := by
  constructor
  · obtain ⟨hfail, _⟩ := tskCreateThread_cleanup ⟨fun _ => none, [4, 5], 0, 0, 0⟩
      TSK_POLICY_NORMAL 10 0 true false (by decide)
    obtain ⟨ht, ha, _, hc, _⟩ := hfail _ rfl (by decide)
    exact ⟨ha, hc⟩
  · intro th hth
    obtain ⟨_, hsucc⟩ := tskCreateThread_cleanup ⟨fun _ => none, [4, 5], 0, 0, 0⟩
      TSK_POLICY_NORMAL 10 0 true true (by decide)
    exact (hsucc th hth).2.1

/-! ## C1 — `MmAllocKvRegion` (kvmm.c lines 492-522)

The arena/bucket model keeps everything the allocation path reads or
writes: free-page count, the `needsMap` flag, the five buckets of free
regions, and the single-page free list.  Region footers are derived
metadata consulted only by the free/coalesce path and are omitted; the
bucket lists themselves carry each region's size.  The region bookkeeping
of `mmKvPrepareRegion` (splitting, bucket moves) is modelled in full since
the single-page free-list refill re-enters the bucket allocator. -/

def MM_KV_NO_DEMAND : Nat := 1
def MM_KV_MAX_FREELIST : Nat := 12
def MM_KV_REFILL_VAL : Nat := 8
def MM_KV_REFILL_MIN : Nat := 4
def NEXKE_CPU_PAGESZ : Nat := 4096

/-- A kernel virtual region header (`MmKvRegion_t`). -/
structure MmKvRegion where
  vaddr : Nat
  numPages : Nat
  isFree : Bool
deriving DecidableEq

/-- `mmKvGetBucket` (kvmm.c lines 128-141). -/
def mmKvGetBucket (sz : Nat) : Nat :=
  if sz ≤ 4 then 0
  else if sz ≤ 8 then 1
  else if sz ≤ 16 then 2
  else if sz ≤ 32 then 3
  else 4

/-- A kernel virtual arena (`MmKvArena_t`): the fields the allocation path
touches.  The C code tracks `freeListSz` separately but keeps it equal to
the list length. -/
structure MmKvArena where
  numFreePages : Nat
  needsMap : Bool
  buckets : Nat → List MmKvRegion
  freeList : List MmKvRegion

/-- `mmKvPrepareRegion` (kvmm.c lines 256-314): charge the arena's free
count, remove the found region from its bucket, and on an inexact fit push
the split-off tail into the bucket of its new size. -/
def mmKvPrepareRegion (arena : MmKvArena) (bucketIdx : Nat)
    (region : MmKvRegion) (numPages : Nat) : MmKvRegion × MmKvArena :=
  let arena1 := { arena with numFreePages := arena.numFreePages - numPages }
  let bRemoved := Function.update arena1.buckets bucketIdx
    ((arena1.buckets bucketIdx).erase region)
  if region.numPages = numPages then
    ({ region with isFree := false }, { arena1 with buckets := bRemoved })
  else
    let splitSz := region.numPages - numPages
    let splitRegion : MmKvRegion :=
      ⟨region.vaddr + numPages * NEXKE_CPU_PAGESZ, splitSz, true⟩
    let destIdx := mmKvGetBucket splitSz
    let bSplit := Function.update bRemoved destIdx
      (splitRegion :: bRemoved destIdx)
    ({ region with numPages := numPages, isFree := false },
      { arena1 with buckets := bSplit })

/-- The bucket scan of `mmAllocKvInArena` (kvmm.c lines 317-356): walk the
current bucket front to back for the first region of at least the
requested size; on failure move to the next bucket, giving up after bucket
`MM_BUCKET_32PLUS` (index 4).  The fuel counts the buckets still to visit
(at most 5); the C loop index never exceeds 4. -/
def mmAllocKvInArenaGo (numPages : Nat) :
    Nat → MmKvArena → Nat → Option (MmKvRegion × MmKvArena)
  | 0, _, _ => none
  | fuel + 1, arena, bucketIdx =>
    match (arena.buckets bucketIdx).find? (fun r => numPages ≤ r.numPages) with
    | some region => some (mmKvPrepareRegion arena bucketIdx region numPages)
    | none =>
      if bucketIdx = 4 then none
      else mmAllocKvInArenaGo numPages fuel arena (bucketIdx + 1)

/-- `mmAllocKvInArena` (kvmm.c lines 317-356). -/
def mmAllocKvInArena (arena : MmKvArena) (numPages : Nat) :
    Option (MmKvRegion × MmKvArena) :=
  mmAllocKvInArenaGo numPages 5 arena (mmKvGetBucket numPages)

/-- The refill loop of `mmKvAllocFreeList` (kvmm.c lines 420-431): carve
single pages from the buckets until the free list holds
`MM_KV_REFILL_VAL` entries, stopping early on OOM.  The fuel is the number
of iterations remaining. -/
def mmKvRefill : Nat → MmKvArena → MmKvArena
  | 0, arena => arena
  | n + 1, arena =>
    match mmAllocKvInArena arena 1 with
    | none => arena
    | some (r, arena') =>
      mmKvRefill n { arena' with freeList := r :: arena'.freeList }

/-- `mmKvAllocFreeList` (kvmm.c lines 407-433): pop the front of the
single-page free list if populated, then refill the list from the buckets
when it has sunk to `MM_KV_REFILL_MIN` or below. -/
def mmKvAllocFreeList (arena : MmKvArena) : Option Nat × MmKvArena :=
  let pa : Option Nat × MmKvArena :=
    match arena.freeList with
    | [] => (none, arena)
    | region :: rest => (some region.vaddr, { arena with freeList := rest })
  let a2 := if pa.2.freeList.length ≤ MM_KV_REFILL_MIN then
      mmKvRefill (MM_KV_REFILL_VAL - pa.2.freeList.length) pa.2
    else pa.2
  (pa.1, a2)

/-- Outcome of a `MmAllocKvRegion` call.  `crash` is the null-pointer
dereference `mmAllocKvInArena (arena, numPages)->vaddr` when the bucket
scan returns NULL; `hang` is the `continue` statement that re-tests the
same arena with unchanged state forever (the loop variable is only
advanced at the bottom of the loop). -/
inductive KvAllocOutcome where
  | retPtr (vaddr : Nat)
  | retNull
  | crash
  | hang
deriving DecidableEq

/-- `MmAllocKvRegion` (kvmm.c lines 492-522) over the arena list.  The
`MM_KV_NO_DEMAND` paging-in of backing pages (`mmKvGetMemory`) touches the
physical allocator only and does not change the returned pointer, so it
does not appear in the outcome. -/
def MmAllocKvRegionGo : List MmKvArena → Nat → Nat → KvAllocOutcome
  | [], _, _ => .retNull
  | arena :: rest, numPages, flags =>
    if numPages ≤ arena.numFreePages then
      if flags &&& MM_KV_NO_DEMAND = 0 ∧ arena.needsMap = false then
        .hang
      else
        let pa := if numPages = 1 then mmKvAllocFreeList arena
                  else (none, arena)
        let pv := match pa.1 with
          | some v => v
          | none => 0
        if pv = 0 then
          match mmAllocKvInArena pa.2 numPages with
          | none => .crash
          | some (r, _) =>
            if r.vaddr = 0 then MmAllocKvRegionGo rest numPages flags
            else .retPtr r.vaddr
        else .retPtr pv
    else MmAllocKvRegionGo rest numPages flags

/-- `MmAllocKvRegion (numPages, flags)` against the global arena list. -/
def MmAllocKvRegion (arenas : List MmKvArena) (numPages : Nat) (flags : Nat) :
    KvAllocOutcome :=
  MmAllocKvRegionGo arenas numPages flags

/-- C1 (code bug): virtual-memory exhaustion does not uniformly surface as
a null return.  (1) An arena with enough free pages in total but no single
region large enough (two non-adjacent single free pages, request of 2)
makes `mmAllocKvInArena` return NULL and `MmAllocKvRegion` dereferences it
(`->vaddr`) — a crash, where the claim and spec §7 require `NULL`.
(2) A demand request that reaches a non-`needsMap` arena with enough pages
hits `continue` without advancing the arena pointer — an infinite loop.
(3) Only when every arena fails the free-count gate does the function
return NULL as claimed. -/
theorem kvAlloc_exhaustion_crash :
    MmAllocKvRegion
        [⟨2, true, Function.update (fun _ => []) 0
            [⟨1048576, 1, true⟩, ⟨3145728, 1, true⟩], []⟩] 2 0 = .crash ∧
    MmAllocKvRegion [⟨5, false, fun _ => [], []⟩] 2 0 = .hang ∧
    MmAllocKvRegion [⟨1, true, fun _ => [], []⟩] 2 0 = .retNull := by
  refine ⟨?_, by decide, by decide⟩
  show MmAllocKvRegionGo _ 2 0 = .crash
  decide

/-! ## Scheduler (C6, C8) — task/sched.c

The CCB fields the scheduler touches (`readyQueues`, `readyMask`,
`curThread`, `curPriority`, `preemptDisable`, `preemptReq`, `idleThread`)
and `CpuScanPriority` belong to a newer `cpu.h`/`NEXKE_MAX_PRIO` than the
snapshot carries; the scheduler functions themselves (sched.c) are in src
and are translated verbatim.  Threads are identified by TID; the intrusive
ready queues become TID lists (front = list head).  Spinlocks are no-ops
on this single-CPU configuration.  `tskPreempt` can re-enter `tskSchedule`,
so the scheduler takes a fuel parameter; exhausted fuel returns the state
unchanged (the hung C loop performs no further writes). -/

/-- Thread states (task.h lines 125-129), as an enumeration. -/
inductive TskState where
  | ready
  | running
  | waiting
  | created
  | terminating
deriving DecidableEq

/-- The per-thread fields the scheduler reads or writes. -/
structure TskThreadState where
  priority : Nat
  state : TskState
  idle : Bool
  preempted : Bool
  quantaLeft : Nat
  quantum : Nat
  waitAsserted : Nat
  lastSchedule : Nat
  runTime : Nat
deriving DecidableEq

/-- The CCB scheduler state.  `threads` maps a TID to its thread record;
`tids` is the finite set of live TIDs; `queues p` is the ready queue of
priority `p` (front first); `clock` stands for `clock->getTime()`. -/
structure NkCcb where
  threads : Nat → TskThreadState
  tids : List Nat
  queues : Nat → List Nat
  readyMask : Nat
  curThread : Nat
  curPriority : Nat
  preemptDisable : Nat
  preemptReq : Bool
  idleThread : Nat
  clock : Nat

/-- Store one thread record. -/
def setThread (s : NkCcb) (t : Nat) (th : TskThreadState) : NkCcb :=
  { s with threads := Function.update s.threads t th }

/-- `readyMask &= ~(1ULL << p)`: clear one mask bit. -/
def clearMaskBit (m i : Nat) : Nat := m ^^^ (m &&& 2 ^ i)

/-- Index of the least significant set bit (0 for input 0); the fuel is
only a structural-termination device, `n` halvings always suffice. -/
def lsbIdxGo : Nat → Nat → Nat
  | 0, _ => 0
  | fuel + 1, n => if n % 2 = 1 ∨ n = 0 then 0 else lsbIdxGo fuel (n / 2) + 1

/-- Index of the least significant set bit (0 for input 0). -/
def lsbIdx (n : Nat) : Nat := lsbIdxGo n n

/-- Modelled from the spec: `CpuScanPriority` is the find-first-set over
the ready bitmap (arch backend not in src); `none` plays the C `-1`. -/
def cpuScanPriority (mask : Nat) : Option Nat :=
  if mask = 0 then none else some (lsbIdx mask)

/-- `tskReadyThread` (sched.c lines 53-78) without its final `tskPreempt`
call: admit the thread to the ready queue of its priority (head when it
was preempted with quanta left, tail otherwise), set the ready-mask bit,
reset the quantum, mark READY.  The boolean is the
`thread->priority < ccb->curPriority` preemption test. -/
def tskReadyCore (s : NkCcb) (t : Nat) : NkCcb × Bool :=
  let th := s.threads t
  let p := th.priority
  let s1 :=
    if th.preempted then
      if th.quantaLeft = 0 then
        { s with queues := Function.update s.queues p (s.queues p ++ [t]) }
      else
        { s with queues := Function.update s.queues p (t :: s.queues p) }
    else
      { s with queues := Function.update s.queues p (s.queues p ++ [t]) }
  let th1 := if th.preempted then { th with preempted := false } else th
  let th2 := { th1 with quantaLeft := th1.quantum, state := .ready }
  let s2 := { setThread s1 t th2 with readyMask := s1.readyMask ||| 2 ^ p }
  (s2, decide (p < s.curPriority))

/-- `tskSetCurrentThread` (sched.c lines 101-120): mark running, stamp
`lastSchedule`, publish as current (the context switch itself has no
observable effect on this state). -/
def tskSetCurrentThread (s : NkCcb) (t : Nat) : NkCcb :=
  let th1 := { s.threads t with state := TskState.running, lastSchedule := s.clock }
  { setThread s t th1 with curThread := t, curPriority := th1.priority }

/-- `tskPreempt` (sched.c lines 174-189), parameterized by the scheduler
entry so the fuel threads through: flag the current thread preempted, then
either record the request (preemption disabled) or schedule. -/
def tskPreemptGo (schedFn : NkCcb → NkCcb) (s : NkCcb) : NkCcb :=
  let cur := s.curThread
  let s1 := setThread s cur { s.threads cur with preempted := true }
  if s1.preemptDisable ≠ 0 then { s1 with preemptReq := true }
  else schedFn { s1 with preemptReq := false }

/-- `tskReadyThread` (sched.c lines 53-78) in full. -/
def tskReadyThreadGo (schedFn : NkCcb → NkCcb) (s : NkCcb) (t : Nat) : NkCcb :=
  let rb := tskReadyCore s t
  if rb.2 then tskPreemptGo schedFn rb.1 else rb.1

/-- `tskStopThread` (sched.c lines 81-97): account runtime; re-admit a
RUNNING non-idle thread; clear the wait assertion of a WAITING thread. -/
def tskStopThreadGo (schedFn : NkCcb → NkCcb) (s : NkCcb) (t : Nat) : NkCcb :=
  let th := s.threads t
  let sA := setThread s t
    { th with runTime := th.runTime + (s.clock - th.lastSchedule) }
  if (sA.threads t).state = TskState.running then
    if (sA.threads t).idle = false then tskReadyThreadGo schedFn sA t
    else sA
  else if (sA.threads t).state = TskState.waiting then
    setThread sA t { sA.threads t with waitAsserted := 0 }
  else sA

/-- `tskSchedule` (sched.c lines 125-152): stop the current thread, pick
the highest-priority ready queue from the bitmap, pop its head (idle
thread when nothing is ready and the current thread no longer runs), and
make it current.  The `[]` queue case cannot arise when the bitmap matches
the queues; the C code would dereference the queue sentinel there. -/
def tskScheduleF : Nat → NkCcb → NkCcb
  | 0, s => s
  | fuel + 1, s =>
    let cur := s.curThread
    let s1 := tskStopThreadGo (tskScheduleF fuel) s cur
    match cpuScanPriority s1.readyMask with
    | none =>
      if (s1.threads cur).state = TskState.running then s1
      else tskSetCurrentThread s1 s1.idleThread
    | some p =>
      match s1.queues p with
      | [] => s1
      | n :: rest =>
        let s2 := { s1 with
                    queues := Function.update s1.queues p rest
                    readyMask := if rest = [] then clearMaskBit s1.readyMask p
                                 else s1.readyMask }
        tskSetCurrentThread s2 n

/-- `tskPreempt` at a given fuel. -/
def tskPreemptF (fuel : Nat) : NkCcb → NkCcb := tskPreemptGo (tskScheduleF fuel)

/-- Public `TskReadyThread` (sched.c lines 302-313; locks are no-ops). -/
def tskReadyThreadF (fuel : Nat) (s : NkCcb) (t : Nat) : NkCcb :=
  tskReadyThreadGo (tskScheduleF fuel) s t

/-- The `for (;;)` body of `TskSetThreadPrio` (sched.c lines 203-270).
`st` is the state sampled before the loop; the C code never re-samples it,
so a re-check failure (`continue`) repeats forever with unchanged state —
the fuel models that spin. -/
def tskSetPrioLoop : Nat → NkCcb → Nat → Nat → TskState → NkCcb
  | 0, s, _, _, _ => s
  | fuel + 1, s, t, newPrio, st =>
    if st = TskState.running then
      if t ≠ s.curThread then tskSetPrioLoop fuel s t newPrio st
      else
        let curPrio := (s.threads t).priority
        let s1 := setThread s t { s.threads t with priority := newPrio }
        let s2 := { s1 with curPriority := newPrio }
        if curPrio < newPrio ∧ s2.readyMask ≠ 0 ∧
            lsbIdx s2.readyMask < newPrio then
          tskPreemptF fuel s2
        else s2
    else if st = TskState.ready then
      if (s.threads t).state ≠ TskState.ready then
        tskSetPrioLoop fuel s t newPrio st
      else
        let curPrio := (s.threads t).priority
        let q1 := (s.queues curPrio).erase t
        let s1 := { s with
                    queues := Function.update s.queues curPrio q1
                    readyMask := if q1 = [] then clearMaskBit s.readyMask curPrio
                                 else s.readyMask }
        let s2 := setThread s1 t { s1.threads t with priority := newPrio }
        let s3 := { s2 with
                    queues := Function.update s2.queues newPrio
                      (s2.queues newPrio ++ [t])
                    readyMask := s2.readyMask ||| 2 ^ newPrio }
        if newPrio < s3.curPriority then tskPreemptF fuel s3 else s3
    else
      if (s.threads t).state ≠ st then tskSetPrioLoop fuel s t newPrio st
      else setThread s t { s.threads t with priority := newPrio }

/-- `TskSetThreadPrio` (sched.c lines 192-273). -/
def tskSetThreadPrioF (fuel : Nat) (s : NkCcb) (t : Nat) (newPrio : Nat) :
    NkCcb :=
  let st := (s.threads t).state
  if (s.threads t).priority ≠ newPrio then tskSetPrioLoop fuel s t newPrio st
  else s

/-! ### Scheduler invariant (C8) -/

/-- The scheduler-state invariant, without the current-thread-is-running
component (which is transiently broken inside `tskSchedule` while the
current thread sits re-admitted on its queue).  Its components:
the ready bitmap has bit `p` set exactly when queue `p` is non-empty;
every queued TID is live, ready, and queued under its own priority; every
ready thread is on the queue of its priority; queues have no duplicates;
priorities fit the 64-bit bitmap; every running non-idle thread is the
current thread; the current and idle threads are live; the idle thread
carries the IDLE flag; and `curPriority` mirrors the current thread's
priority. -/
structure SchedBase (s : NkCcb) : Prop where
  maskQueues : ∀ p, s.readyMask.testBit p ↔ s.queues p ≠ []
  queueMem : ∀ p t, t ∈ s.queues p →
    t ∈ s.tids ∧ (s.threads t).priority = p ∧ (s.threads t).state = .ready
  readyInQueue : ∀ t ∈ s.tids, (s.threads t).state = .ready →
    t ∈ s.queues (s.threads t).priority
  queueNodup : ∀ p, (s.queues p).Nodup
  prioBound : ∀ t ∈ s.tids, (s.threads t).priority < 64
  runningIsCur : ∀ t ∈ s.tids, (s.threads t).state = .running →
    (s.threads t).idle = false → t = s.curThread
  curMem : s.curThread ∈ s.tids
  idleMem : s.idleThread ∈ s.tids
  idleFlag : (s.threads s.idleThread).idle = true
  curPrioEq : s.curPriority = (s.threads s.curThread).priority

/-- The full scheduler invariant: the base plus "the current thread is in
state RUNNING" (true at every operation boundary). -/
def SchedInv (s : NkCcb) : Prop :=
  SchedBase s ∧ (s.threads s.curThread).state = .running

/-- Helper: with enough fuel, the computed lowest set bit is set. -/
theorem lsbIdxGo_testBit (fuel : Nat) : ∀ n, n ≠ 0 → n ≤ fuel →
    n.testBit (lsbIdxGo fuel n) = true := by
  induction fuel with
  | zero =>
    intro n hn hle
    omega
  | succ fuel ih =>
    intro n hn hle
    unfold lsbIdxGo
    by_cases h1 : n % 2 = 1 ∨ n = 0
    · rw [if_pos h1]
      rcases h1 with h1 | h1
      · simp [h1]
      · exact absurd h1 hn
    · rw [if_neg h1]
      push_neg at h1
      have hpos : 0 < n := Nat.pos_of_ne_zero hn
      have hn2 : n / 2 ≠ 0 := by omega
      have hfe : n / 2 ≤ fuel := by omega
      rw [Nat.testBit_add_one]
      exact ih (n / 2) hn2 hfe

/-- Helper: clearing bit `i` clears exactly bit `i`. -/
theorem clearMaskBit_testBit (m i j : Nat) :
    (clearMaskBit m i).testBit j = if j = i then false else m.testBit j := by
  unfold clearMaskBit
  rcases eq_or_ne j i with hij | hij
  · simp [hij, Nat.testBit_two_pow_self]
  · simp [hij, Nat.testBit_two_pow_of_ne (Ne.symm hij)]

/-- Helper: setting bit `p` sets exactly bit `p`. -/
theorem or_two_pow_testBit (m p j : Nat) :
    (m ||| 2 ^ p).testBit j = (m.testBit j || decide (p = j)) := by
  simp [Nat.testBit_two_pow]

/-- Bookkeeping facts about `tskReadyCore`: the fields it leaves alone, the
updates to the admitted thread and its queue, the ready-mask update, and
the preemption test it reports. -/
theorem tskReadyCore_facts (s : NkCcb) (t : Nat) :
    (tskReadyCore s t).1.curThread = s.curThread ∧
    (tskReadyCore s t).1.curPriority = s.curPriority ∧
    (tskReadyCore s t).1.idleThread = s.idleThread ∧
    (tskReadyCore s t).1.tids = s.tids ∧
    (tskReadyCore s t).1.preemptDisable = s.preemptDisable ∧
    (tskReadyCore s t).1.preemptReq = s.preemptReq ∧
    (tskReadyCore s t).1.clock = s.clock ∧
    (tskReadyCore s t).1.readyMask =
      s.readyMask ||| 2 ^ (s.threads t).priority ∧
    (tskReadyCore s t).2 = decide ((s.threads t).priority < s.curPriority) ∧
    (tskReadyCore s t).1.threads t =
      { s.threads t with
        preempted := false
        quantaLeft := (s.threads t).quantum
        state := .ready } ∧
    (∀ u, u ≠ t → (tskReadyCore s t).1.threads u = s.threads u) ∧
    (∀ q, q ≠ (s.threads t).priority →
      (tskReadyCore s t).1.queues q = s.queues q) ∧
    (tskReadyCore s t).1.queues (s.threads t).priority =
      (if (s.threads t).preempted = true ∧ (s.threads t).quantaLeft ≠ 0
       then t :: s.queues (s.threads t).priority
       else s.queues (s.threads t).priority ++ [t]) := by
  by_cases hp : (s.threads t).preempted
  · by_cases hq : (s.threads t).quantaLeft = 0
    · simp [tskReadyCore, setThread, hp, hq, Function.update_same,
        Function.update_noteq]
      constructor
      · intro u hu
        rw [Function.update_noteq hu]
      · intro q hq2
        rw [Function.update_noteq hq2]
    · simp [tskReadyCore, setThread, hp, hq, Function.update_same,
        Function.update_noteq]
      constructor
      · intro u hu
        rw [Function.update_noteq hu]
      · intro q hq2
        rw [Function.update_noteq hq2]
  · simp [tskReadyCore, setThread, hp, Function.update_same,
      Function.update_noteq]
    constructor
    · intro u hu
      rw [Function.update_noteq hu]
    · intro q hq2
      rw [Function.update_noteq hq2]

/-- Admitting a non-ready live thread preserves the base invariant. -/
theorem tskReadyCore_base (s : NkCcb) (t : Nat) (hB : SchedBase s)
    (ht : t ∈ s.tids) (hnr : (s.threads t).state ≠ .ready) :
    SchedBase (tskReadyCore s t).1 := by
  obtain ⟨hcur, hcp, hidle, htids, hpd, hpr, hclk, hmask, hb, hthT, hthU, hqU,
    hqP⟩ := tskReadyCore_facts s t
  set p := (s.threads t).priority with hpdef
  have hnotq : ∀ q, t ∉ s.queues q := fun q hq => hnr (hB.queueMem q t hq).2.2
  have hqmem : ∀ u, u ∈ (tskReadyCore s t).1.queues p ↔
      u = t ∨ u ∈ s.queues p := by
    intro u
    rw [hqP]
    split
    · simp [List.mem_cons]
    · simp [List.mem_append, or_comm]
  have hthT' : ((tskReadyCore s t).1.threads t).priority = p ∧
      ((tskReadyCore s t).1.threads t).state = .ready ∧
      ((tskReadyCore s t).1.threads t).idle = (s.threads t).idle := by
    rw [hthT]
    exact ⟨rfl, rfl, rfl⟩
  constructor
  · -- maskQueues
    intro q
    rw [hmask, or_two_pow_testBit]
    rcases eq_or_ne q p with hq | hq
    · subst hq
      simp only [decide_eq_true_eq]
      constructor
      · intro _
        intro hcon
        have := (hqmem t).mpr (Or.inl rfl)
        rw [hcon] at this
        exact List.not_mem_nil t this
      · intro _
        simp
    · rw [hqU q hq]
      have : decide (p = q) = false := by
        simp [Ne.symm hq]
      rw [this]
      simp only [Bool.or_false]
      exact hB.maskQueues q
  · -- queueMem
    intro q u hu
    rw [htids]
    rcases eq_or_ne q p with hq | hq
    · subst hq
      rcases (hqmem u).mp hu with hut | hus
      · subst hut
        exact ⟨ht, hthT'.1, hthT'.2.1⟩
      · have hune : u ≠ t := fun h => hnotq p (h ▸ hus)
        rw [hthU u hune]
        exact hB.queueMem p u hus
    · rw [hqU q hq] at hu
      have hune : u ≠ t := fun h => hnotq q (h ▸ hu)
      rw [hthU u hune]
      exact hB.queueMem q u hu
  · -- readyInQueue
    intro u hu hready
    rw [htids] at hu
    rcases eq_or_ne u t with hut | hut
    · subst hut
      rw [hthT'.1]
      exact (hqmem u).mpr (Or.inl rfl)
    · rw [hthU u hut] at hready ⊢
      have hq := hB.readyInQueue u hu hready
      rcases eq_or_ne (s.threads u).priority p with hp2 | hp2
      · rw [hp2]
        exact (hqmem u).mpr (Or.inr (hp2 ▸ hq))
      · rw [hqU _ hp2]
        exact hq
  · -- queueNodup
    intro q
    rcases eq_or_ne q p with hq | hq
    · subst hq
      rw [hqP]
      split
      · exact List.Nodup.cons (hnotq p) (hB.queueNodup p)
      · rw [List.nodup_append]
        exact ⟨hB.queueNodup p, List.nodup_singleton t, by
          intro a ha hat
          rw [List.mem_singleton] at hat
          exact hnotq p (hat ▸ ha)⟩
    · rw [hqU q hq]
      exact hB.queueNodup q
  · -- prioBound
    intro u hu
    rw [htids] at hu
    rcases eq_or_ne u t with hut | hut
    · rw [hut, hthT'.1]
      exact hB.prioBound t ht
    · rw [hthU u hut]
      exact hB.prioBound u hu
  · -- runningIsCur
    intro u hu hrun hni
    rw [htids] at hu
    rw [hcur]
    rcases eq_or_ne u t with hut | hut
    · subst hut
      rw [hthT'.2.1] at hrun
      exact absurd hrun (by simp)
    · rw [hthU u hut] at hrun hni
      exact hB.runningIsCur u hu hrun hni
  · -- curMem
    rw [hcur, htids]
    exact hB.curMem
  · -- idleMem
    rw [hidle, htids]
    exact hB.idleMem
  · -- idleFlag
    rw [hidle]
    rcases eq_or_ne s.idleThread t with hit | hit
    · rw [hit, hthT'.2.2, ← hit]
      exact hB.idleFlag
    · rw [hthU _ hit]
      exact hB.idleFlag
  · -- curPrioEq
    rw [hcp, hcur]
    rcases eq_or_ne s.curThread t with hct | hct
    · rw [hct, hthT'.1, hpdef, ← hct]
      exact hB.curPrioEq
    · rw [hthU _ hct]
      exact hB.curPrioEq

/-- Updating one thread record without changing its priority, state, or
IDLE flag (runtime accounting, the `preempted` flag, `waitAsserted`)
preserves the base invariant. -/
theorem schedBase_benign (s : NkCcb) (t : Nat) (th' : TskThreadState)
    (hB : SchedBase s)
    (hp : th'.priority = (s.threads t).priority)
    (hs : th'.state = (s.threads t).state)
    (hi : th'.idle = (s.threads t).idle) :
    SchedBase (setThread s t th') := by
  have hth : ∀ u, ((setThread s t th').threads u).priority =
      (s.threads u).priority ∧
      ((setThread s t th').threads u).state = (s.threads u).state ∧
      ((setThread s t th').threads u).idle = (s.threads u).idle := by
    intro u
    by_cases hu : u = t
    · subst hu
      simp [setThread, Function.update_same, hp, hs, hi]
    · simp [setThread, Function.update_noteq hu]
  constructor
  · exact hB.maskQueues
  · intro q u hu
    obtain ⟨h1, h2, h3⟩ := hB.queueMem q u hu
    exact ⟨h1, (hth u).1.trans h2, (hth u).2.1.trans h3⟩
  · intro u hu hready
    rw [(hth u).1]
    exact hB.readyInQueue u hu ((hth u).2.1.symm.trans hready)
  · exact hB.queueNodup
  · intro u hu
    rw [(hth u).1]
    exact hB.prioBound u hu
  · intro u hu hrun hni
    exact hB.runningIsCur u hu ((hth u).2.1.symm.trans hrun)
      ((hth u).2.2.symm.trans hni)
  · exact hB.curMem
  · exact hB.idleMem
  · show ((setThread s t th').threads s.idleThread).idle = true
    rw [(hth s.idleThread).2.2]
    exact hB.idleFlag
  · show s.curPriority = ((setThread s t th').threads s.curThread).priority
    rw [(hth s.curThread).1]
    exact hB.curPrioEq

/-- The pick phase of `tskSchedule`: popping the head `n` of a non-empty
ready queue and making it current yields the full invariant, provided
every running thread of the pre-state is the idle thread (which is exactly
the situation after `tskStopThread`). -/
theorem tskPick_inv (s1 : NkCcb) (hB : SchedBase s1)
    (hrun : ∀ u ∈ s1.tids, (s1.threads u).state = .running →
      (s1.threads u).idle = true)
    (p n : Nat) (rest : List Nat) (hq : s1.queues p = n :: rest) :
    SchedInv (tskSetCurrentThread
      { s1 with
        queues := Function.update s1.queues p rest
        readyMask := if rest = [] then clearMaskBit s1.readyMask p
                     else s1.readyMask } n) := by
  have hnmem : n ∈ s1.queues p := by rw [hq]; exact List.mem_cons_self n rest
  obtain ⟨hntid, hnprio, hnready⟩ := hB.queueMem p n hnmem
  have hnodup : (n :: rest).Nodup := hq ▸ hB.queueNodup p
  have hnotin : n ∉ rest := (List.nodup_cons.mp hnodup).1
  have hrestnd : rest.Nodup := (List.nodup_cons.mp hnodup).2
  have hninq : ∀ q, n ∈ s1.queues q → q = p := by
    intro q hnq
    have h2 := (hB.queueMem q n hnq).2.1
    rw [hnprio] at h2
    exact h2.symm
  have hres : tskSetCurrentThread
      { s1 with
        queues := Function.update s1.queues p rest
        readyMask := if rest = [] then clearMaskBit s1.readyMask p
                     else s1.readyMask } n =
      (⟨Function.update s1.threads n
          { s1.threads n with state := TskState.running,
                              lastSchedule := s1.clock },
        s1.tids, Function.update s1.queues p rest,
        (if rest = [] then clearMaskBit s1.readyMask p else s1.readyMask), n,
        (s1.threads n).priority, s1.preemptDisable, s1.preemptReq,
        s1.idleThread, s1.clock⟩ : NkCcb) := rfl
  rw [hres]
  set th1 : TskThreadState := { s1.threads n with
    state := TskState.running, lastSchedule := s1.clock } with hth1def
  have hthn : ∀ u, u ≠ n → Function.update s1.threads n th1 u = s1.threads u :=
    fun u hu => Function.update_noteq hu _ _
  have hthnn : Function.update s1.threads n th1 n = th1 :=
    Function.update_same n th1 s1.threads
  refine ⟨⟨?_, ?_, ?_, ?_, ?_, ?_, ?_, ?_, ?_, ?_⟩, ?_⟩
  · -- maskQueues
    intro q
    simp only []
    rcases eq_or_ne q p with hqp | hqp
    · subst hqp
      rw [Function.update_same]
      split
      · rename_i hrest
        rw [clearMaskBit_testBit, if_pos rfl]
        subst hrest
        simp
      · rename_i hrest
        have hbit : s1.readyMask.testBit q = true := by
          rw [hB.maskQueues q, hq]
          simp
        rw [hbit]
        simp [hrest]
    · rw [Function.update_noteq hqp]
      split
      · rw [clearMaskBit_testBit, if_neg hqp]
        exact hB.maskQueues q
      · exact hB.maskQueues q
  · -- queueMem
    intro q u hu
    simp only [] at hu ⊢
    rcases eq_or_ne q p with hqp | hqp
    · subst hqp
      rw [Function.update_same] at hu
      have hu1 : u ∈ s1.queues q := by
        rw [hq]; exact List.mem_cons_of_mem n hu
      have hun : u ≠ n := fun h => hnotin (h ▸ hu)
      rw [hthn u hun]
      exact hB.queueMem q u hu1
    · rw [Function.update_noteq hqp] at hu
      have hun : u ≠ n := fun h => hqp (hninq q (h ▸ hu))
      rw [hthn u hun]
      exact hB.queueMem q u hu
  · -- readyInQueue
    intro u hu hready
    simp only [] at hu hready ⊢
    rcases eq_or_ne u n with hun | hun
    · rw [hun, hthnn] at hready
      exact absurd hready (by rw [hth1def]; simp)
    · rw [hthn u hun] at hready ⊢
      have hq1 := hB.readyInQueue u hu hready
      rcases eq_or_ne ((s1.threads u).priority) p with hup | hup
      · rw [hup, Function.update_same]
        rw [hup, hq] at hq1
        rcases List.mem_cons.mp hq1 with h | h
        · exact absurd h hun
        · exact h
      · rw [Function.update_noteq hup]
        exact hq1
  · -- queueNodup
    intro q
    simp only []
    rcases eq_or_ne q p with hqp | hqp
    · rw [hqp, Function.update_same]
      exact hrestnd
    · rw [Function.update_noteq hqp]
      exact hB.queueNodup q
  · -- prioBound
    intro u hu
    simp only [] at hu ⊢
    rcases eq_or_ne u n with hun | hun
    · rw [hun, hthnn, hth1def]
      exact hB.prioBound n hntid
    · rw [hthn u hun]
      exact hB.prioBound u hu
  · -- runningIsCur
    intro u hu hru hni
    simp only [] at hu hru hni ⊢
    rcases eq_or_ne u n with hun | hun
    · exact hun
    · rw [hthn u hun] at hru hni
      have hidle := hrun u hu hru
      rw [hidle] at hni
      exact absurd hni (by simp)
  · -- curMem
    exact hntid
  · -- idleMem
    exact hB.idleMem
  · -- idleFlag
    simp only []
    rcases eq_or_ne s1.idleThread n with hin | hin
    · rw [hin, hthnn, hth1def]
      show (s1.threads n).idle = true
      rw [← hin]
      exact hB.idleFlag
    · rw [hthn _ hin]
      exact hB.idleFlag
  · -- curPrioEq
    simp only []
    rw [hthnn]
  · -- curRunning
    show (Function.update s1.threads n th1 n).state = .running
    rw [hthnn, hth1def]

/-- `tskSchedule` preserves the scheduler invariant, for any fuel. -/
theorem tskScheduleF_inv (fuel : Nat) (s : NkCcb) (h : SchedInv s) :
    SchedInv (tskScheduleF fuel s) := by
  obtain ⟨hB, hrun⟩ := h
  cases fuel with
  | zero => exact ⟨hB, hrun⟩
  | succ fuel =>
    set sA : NkCcb := setThread s s.curThread
      ⟨(s.threads s.curThread).priority, (s.threads s.curThread).state,
       (s.threads s.curThread).idle, (s.threads s.curThread).preempted,
       (s.threads s.curThread).quantaLeft, (s.threads s.curThread).quantum,
       (s.threads s.curThread).waitAsserted,
       (s.threads s.curThread).lastSchedule,
       (s.threads s.curThread).runTime +
         (s.clock - (s.threads s.curThread).lastSchedule)⟩ with hsAdef
    have hBA : SchedBase sA := schedBase_benign _ _ _ hB rfl rfl rfl
    have hthA : sA.threads s.curThread =
        ⟨(s.threads s.curThread).priority, (s.threads s.curThread).state,
         (s.threads s.curThread).idle, (s.threads s.curThread).preempted,
         (s.threads s.curThread).quantaLeft, (s.threads s.curThread).quantum,
         (s.threads s.curThread).waitAsserted,
         (s.threads s.curThread).lastSchedule,
         (s.threads s.curThread).runTime +
           (s.clock - (s.threads s.curThread).lastSchedule)⟩ := by
      rw [hsAdef]
      exact Function.update_same _ _ _
    have hthAU : ∀ u, u ≠ s.curThread → sA.threads u = s.threads u := by
      intro u hu
      rw [hsAdef]
      exact Function.update_noteq hu _ _
    have hstA : (sA.threads s.curThread).state = TskState.running := by
      rw [hthA]
      exact hrun
    have hidleA : (sA.threads s.curThread).idle = (s.threads s.curThread).idle := by
      rw [hthA]
    have hprioA : (sA.threads s.curThread).priority =
        (s.threads s.curThread).priority := by
      rw [hthA]
    -- the stop phase: the current thread is running, and when re-admitted
    -- its preemption test is false since curPriority mirrors its priority
    have hb2 : (tskReadyCore sA s.curThread).2 = false := by
      obtain ⟨_, _, _, _, _, _, _, _, hb, _⟩ := tskReadyCore_facts sA s.curThread
      rw [hb, hprioA]
      have : sA.curPriority = (s.threads s.curThread).priority := hB.curPrioEq
      rw [this]
      simp
    have hstop : tskStopThreadGo (tskScheduleF fuel) s s.curThread =
        (if (s.threads s.curThread).idle = false
         then (tskReadyCore sA s.curThread).1 else sA) := by
      simp only [tskStopThreadGo]
      rw [← hsAdef, if_pos hstA, hidleA]
      by_cases hid : (s.threads s.curThread).idle = false
      · rw [if_pos hid, if_pos hid]
        simp [tskReadyThreadGo, hb2]
      · rw [if_neg hid, if_neg hid]
    simp only [tskScheduleF]
    rw [hstop]
    by_cases hid : (s.threads s.curThread).idle = false
    · -- the current thread was re-admitted to its ready queue
      rw [if_pos hid]
      obtain ⟨hcur1, hcp1, hidle1, htids1, _, _, _, hmask1, _, hthT1, hthU1,
        hqU1, hqP1⟩ := tskReadyCore_facts sA s.curThread
      have hcurA : sA.curThread = s.curThread := rfl
      have htidsA : sA.tids = s.tids := rfl
      have hB1 : SchedBase (tskReadyCore sA s.curThread).1 := by
        refine tskReadyCore_base sA s.curThread hBA ?_ ?_
        · exact hB.curMem
        · rw [hstA]
          simp
      have hbit : (tskReadyCore sA s.curThread).1.readyMask.testBit
          ((sA.threads s.curThread).priority) = true := by
        rw [hmask1, or_two_pow_testBit]
        simp
      have hne0 : (tskReadyCore sA s.curThread).1.readyMask ≠ 0 := by
        intro hc
        rw [hc] at hbit
        simp [Nat.zero_testBit] at hbit
      have hrunIdle : ∀ u ∈ (tskReadyCore sA s.curThread).1.tids,
          ((tskReadyCore sA s.curThread).1.threads u).state = .running →
          ((tskReadyCore sA s.curThread).1.threads u).idle = true := by
        intro u hu hru
        rcases eq_or_ne u s.curThread with hus | hus
        · rw [hus, hthT1] at hru
          exact absurd hru (by simp)
        · rw [hthU1 u hus] at hru ⊢
          rw [hthAU u hus] at hru ⊢
          rw [htids1, htidsA] at hu
          by_contra hni
          have hni2 : (s.threads u).idle = false := by
            revert hni
            rcases (s.threads u).idle <;> simp
          exact hus (hB.runningIsCur u hu hru hni2)
      split
      · -- scan = none: impossible, the current thread is queued
        rename_i heq
        rw [cpuScanPriority, if_neg hne0] at heq
        exact absurd heq (by simp)
      · rename_i p heq
        rw [cpuScanPriority, if_neg hne0] at heq
        have hp : p = lsbIdx (tskReadyCore sA s.curThread).1.readyMask := by
          injection heq with h2
          exact h2.symm
        have hbitp : (tskReadyCore sA s.curThread).1.readyMask.testBit p = true := by
          rw [hp]
          exact lsbIdxGo_testBit _ _ hne0 le_rfl
        have hqnonnil : (tskReadyCore sA s.curThread).1.queues p ≠ [] :=
          (hB1.maskQueues p).mp hbitp
        split
        · rename_i hqe
          exact absurd hqe hqnonnil
        · rename_i n rest hqe
          exact tskPick_inv _ hB1 hrunIdle p n rest hqe
    · -- the current thread is the idle thread: it is not re-admitted
      rw [if_neg hid]
      have hidT : (s.threads s.curThread).idle = true := by
        revert hid
        rcases (s.threads s.curThread).idle <;> simp
      have hrunIdleA : ∀ u ∈ sA.tids, (sA.threads u).state = .running →
          (sA.threads u).idle = true := by
        intro u hu hru
        rcases eq_or_ne u s.curThread with hus | hus
        · rw [hus, hidleA]
          exact hidT
        · rw [hthAU u hus] at hru ⊢
          by_contra hni
          have hni2 : (s.threads u).idle = false := by
            revert hni
            rcases (s.threads u).idle <;> simp
          exact hus (hB.runningIsCur u hu hru hni2)
      split
      · -- scan = none: keep running the idle thread
        rw [if_pos hstA]
        exact ⟨hBA, hstA⟩
      · rename_i p heq
        by_cases hz : sA.readyMask = 0
        · rw [cpuScanPriority, if_pos hz] at heq
          exact absurd heq (by simp)
        · rw [cpuScanPriority, if_neg hz] at heq
          have hp : p = lsbIdx sA.readyMask := by
            injection heq with h2
            exact h2.symm
          have hbitp : sA.readyMask.testBit p = true := by
            rw [hp]
            exact lsbIdxGo_testBit _ _ hz le_rfl
          have hqnonnil : sA.queues p ≠ [] := (hBA.maskQueues p).mp hbitp
          split
          · rename_i hqe
            exact absurd hqe hqnonnil
          · rename_i n rest hqe
            exact tskPick_inv _ hBA hrunIdleA p n rest hqe

/-- The invariant does not mention `preemptReq`: setting it is harmless. -/
theorem schedInv_preemptReq (s : NkCcb) (b : Bool) (h : SchedInv s) :
    SchedInv { s with preemptReq := b } := by
  obtain ⟨hB, hr⟩ := h
  refine ⟨⟨?_, ?_, ?_, ?_, ?_, ?_, ?_, ?_, ?_, ?_⟩, ?_⟩
  · exact hB.maskQueues
  · exact hB.queueMem
  · exact hB.readyInQueue
  · exact hB.queueNodup
  · exact hB.prioBound
  · exact hB.runningIsCur
  · exact hB.curMem
  · exact hB.idleMem
  · exact hB.idleFlag
  · exact hB.curPrioEq
  · exact hr

/-- `tskPreempt` preserves the scheduler invariant. -/
theorem tskPreemptF_inv (fuel : Nat) (s : NkCcb) (h : SchedInv s) :
    SchedInv (tskPreemptF fuel s) := by
  obtain ⟨hB, hrun⟩ := h
  have hB1 : SchedBase (setThread s s.curThread
      { s.threads s.curThread with preempted := true }) :=
    schedBase_benign _ _ _ hB rfl rfl rfl
  have hrun1 : ((setThread s s.curThread
      { s.threads s.curThread with preempted := true }).threads
        s.curThread).state = TskState.running := by
    show (Function.update s.threads s.curThread _ s.curThread).state = _
    rw [Function.update_same]
    exact hrun
  simp only [tskPreemptF, tskPreemptGo]
  split
  · exact schedInv_preemptReq _ true ⟨hB1, hrun1⟩
  · exact tskScheduleF_inv fuel _ (schedInv_preemptReq _ false ⟨hB1, hrun1⟩)

/-- `TskReadyThread` on a live thread that is neither RUNNING nor already
READY preserves the scheduler invariant. -/
theorem tskReadyThreadF_inv (fuel : Nat) (s : NkCcb) (t : Nat)
    (h : SchedInv s) (ht : t ∈ s.tids)
    (hnr : (s.threads t).state ≠ .running)
    (hnq : (s.threads t).state ≠ .ready) :
    SchedInv (tskReadyThreadF fuel s t) := by
  obtain ⟨hB, hrun⟩ := h
  have htc : t ≠ s.curThread := fun hc => hnr (hc ▸ hrun)
  have hB1 : SchedBase (tskReadyCore s t).1 := tskReadyCore_base s t hB ht hnq
  obtain ⟨hcur1, _, _, _, _, _, _, _, _, _, hthU1, _, _⟩ := tskReadyCore_facts s t
  have hrun1 : ((tskReadyCore s t).1.threads
      (tskReadyCore s t).1.curThread).state = TskState.running := by
    rw [hcur1, hthU1 s.curThread (fun hc => htc hc.symm)]
    exact hrun
  simp only [tskReadyThreadF, tskReadyThreadGo]
  split
  · exact tskPreemptF_inv fuel _ ⟨hB1, hrun1⟩
  · exact ⟨hB1, hrun1⟩

/-- The READY case of `TskSetThreadPrio`: dequeue from the old priority's
queue, update the priority, append to the new priority's queue, and fix
both bitmap bits.  Preserves the invariant for any new priority below 64. -/
theorem tskSetPrio_ready_inv (s : NkCcb) (t newPrio : Nat) (h : SchedInv s)
    (hnp : newPrio < 64) (ht : t ∈ s.tids)
    (hready : (s.threads t).state = .ready) :
    SchedInv (⟨Function.update s.threads t
        { s.threads t with priority := newPrio },
      s.tids,
      Function.update
        (Function.update s.queues ((s.threads t).priority)
          ((s.queues ((s.threads t).priority)).erase t)) newPrio
        ((Function.update s.queues ((s.threads t).priority)
          ((s.queues ((s.threads t).priority)).erase t)) newPrio ++ [t]),
      (if (s.queues ((s.threads t).priority)).erase t = []
       then clearMaskBit s.readyMask ((s.threads t).priority)
       else s.readyMask) ||| 2 ^ newPrio,
      s.curThread, s.curPriority, s.preemptDisable, s.preemptReq,
      s.idleThread, s.clock⟩ : NkCcb) := by
  obtain ⟨hB, hrun⟩ := h
  have htc : t ≠ s.curThread := by
    intro hc
    rw [hc, hrun] at hready
    exact absurd hready (by simp)
  set cp := (s.threads t).priority with hcpdef
  set q1 := (s.queues cp).erase t with hq1def
  set m1 := (if q1 = [] then clearMaskBit s.readyMask cp else s.readyMask)
    with hm1def
  set th2 : TskThreadState := { s.threads t with priority := newPrio }
    with hth2def
  have htq : t ∈ s.queues cp := hB.readyInQueue t ht hready
  have hQcp : s.queues cp ≠ [] := by
    intro hc
    rw [hc] at htq
    simp at htq
  have htonly : ∀ q, t ∈ s.queues q → q = cp := by
    intro q hq
    exact ((hB.queueMem q t hq).2.1).symm
  have hthT : Function.update s.threads t th2 t = th2 :=
    Function.update_same t th2 s.threads
  have hthU : ∀ u, u ≠ t → Function.update s.threads t th2 u = s.threads u :=
    fun u hu => Function.update_noteq hu _ _
  have hm1bit : ∀ j, m1.testBit j =
      (if q1 = [] ∧ j = cp then false else s.readyMask.testBit j) := by
    intro j
    rw [hm1def]
    by_cases he : q1 = []
    · rw [if_pos he, clearMaskBit_testBit]
      by_cases hj : j = cp
      · rw [if_pos hj, if_pos ⟨he, hj⟩]
      · rw [if_neg hj, if_neg (fun hc => hj hc.2)]
    · rw [if_neg he, if_neg (fun hc => he hc.1)]
  refine ⟨⟨?_, ?_, ?_, ?_, ?_, ?_, ?_, ?_, ?_, ?_⟩, ?_⟩
  · -- maskQueues
    intro p
    simp only []
    rw [or_two_pow_testBit, hm1bit p]
    rcases eq_or_ne p newPrio with hpn | hpn
    · subst hpn
      rw [Function.update_same]
      simp
    · rw [Function.update_noteq hpn]
      have hd : decide (newPrio = p) = false :=
        decide_eq_false (fun hc => hpn hc.symm)
      rw [hd, Bool.or_false]
      rcases eq_or_ne p cp with hpc | hpc
      · rw [hpc, Function.update_same]
        by_cases he : q1 = []
        · rw [if_pos ⟨he, rfl⟩, he]
          simp
        · rw [if_neg (fun hc => he hc.1)]
          have hbit : s.readyMask.testBit cp = true :=
            (hB.maskQueues cp).mpr hQcp
          rw [hbit]
          simp [he]
      · rw [Function.update_noteq hpc, if_neg (fun hc => hpc hc.2)]
        exact hB.maskQueues p
  · -- queueMem
    intro q u hu
    simp only [] at hu ⊢
    rcases eq_or_ne q newPrio with hqn | hqn
    · subst hqn
      rw [Function.update_same] at hu
      rcases List.mem_append.mp hu with hu1 | hu1
      · have hu2 : u ∈ s.queues q ∧ u ≠ t := by
          rcases eq_or_ne q cp with hqc | hqc
          · rw [hqc, Function.update_same, hq1def] at hu1
            have h3 := (hB.queueNodup cp).mem_erase_iff.mp hu1
            refine ⟨?_, h3.1⟩
            rw [hqc]
            exact h3.2
          · rw [Function.update_noteq hqc] at hu1
            exact ⟨hu1, fun hc => hqc (htonly q (hc ▸ hu1))⟩
        obtain ⟨hmem, hune⟩ := hu2
        rw [hthU u hune]
        exact hB.queueMem q u hmem
      · have hut : u = t := List.mem_singleton.mp hu1
        rw [hut, hthT]
        refine ⟨ht, ?_, ?_⟩
        · rw [hth2def]
        · rw [hth2def]
          exact hready
    · rw [Function.update_noteq hqn] at hu
      have hu2 : u ∈ s.queues q ∧ u ≠ t := by
        rcases eq_or_ne q cp with hqc | hqc
        · rw [hqc, Function.update_same, hq1def] at hu
          have h3 := (hB.queueNodup cp).mem_erase_iff.mp hu
          refine ⟨?_, h3.1⟩
          rw [hqc]
          exact h3.2
        · rw [Function.update_noteq hqc] at hu
          exact ⟨hu, fun hc => hqc (htonly q (hc ▸ hu))⟩
      obtain ⟨hmem, hune⟩ := hu2
      rw [hthU u hune]
      exact hB.queueMem q u hmem
  · -- readyInQueue
    intro u hu hred
    simp only [] at hu hred ⊢
    rcases eq_or_ne u t with hut | hut
    · rw [hut, hthT] at hred ⊢
      have hp2 : th2.priority = newPrio := by rw [hth2def]
      rw [hp2, Function.update_same]
      exact List.mem_append.mpr (Or.inr (List.mem_singleton.mpr rfl))
    · rw [hthU u hut] at hred ⊢
      have hq0 := hB.readyInQueue u hu hred
      rcases eq_or_ne ((s.threads u).priority) newPrio with hpn | hpn
      · rw [hpn] at hq0 ⊢
        rw [Function.update_same]
        refine List.mem_append.mpr (Or.inl ?_)
        rcases eq_or_ne newPrio cp with hnc | hnc
        · rw [hnc, Function.update_same, hq1def]
          rw [hnc] at hq0
          exact (List.mem_erase_of_ne hut).mpr hq0
        · rw [Function.update_noteq hnc]
          exact hq0
      · rw [Function.update_noteq hpn]
        rcases eq_or_ne ((s.threads u).priority) cp with hpc | hpc
        · rw [hpc] at hq0 ⊢
          rw [Function.update_same, hq1def]
          exact (List.mem_erase_of_ne hut).mpr hq0
        · rw [Function.update_noteq hpc]
          exact hq0
  · -- queueNodup
    intro q
    simp only []
    rcases eq_or_ne q newPrio with hqn | hqn
    · rw [hqn, Function.update_same, List.nodup_append]
      refine ⟨?_, List.nodup_singleton t, ?_⟩
      · rcases eq_or_ne newPrio cp with hnc | hnc
        · rw [hnc, Function.update_same, hq1def]
          exact (hB.queueNodup cp).erase t
        · rw [Function.update_noteq hnc]
          exact hB.queueNodup newPrio
      · intro a ha1 ha2
        have hat : a = t := List.mem_singleton.mp ha2
        rcases eq_or_ne newPrio cp with hnc | hnc
        · rw [hnc, Function.update_same, hq1def] at ha1
          rw [hat] at ha1
          exact (hB.queueNodup cp).not_mem_erase ha1
        · rw [Function.update_noteq hnc] at ha1
          rw [hat] at ha1
          exact hnc (htonly newPrio ha1)
    · rw [Function.update_noteq hqn]
      rcases eq_or_ne q cp with hqc | hqc
      · rw [hqc, Function.update_same, hq1def]
        exact (hB.queueNodup cp).erase t
      · rw [Function.update_noteq hqc]
        exact hB.queueNodup q
  · -- prioBound
    intro u hu
    simp only [] at hu ⊢
    rcases eq_or_ne u t with hut | hut
    · rw [hut, hthT, hth2def]
      exact hnp
    · rw [hthU u hut]
      exact hB.prioBound u hu
  · -- runningIsCur
    intro u hu hru hni
    simp only [] at hu hru hni ⊢
    rcases eq_or_ne u t with hut | hut
    · rw [hut, hthT] at hru
      have hcontra : (s.threads t).state = TskState.running := by
        rw [hth2def] at hru
        exact hru
      rw [hready] at hcontra
      exact absurd hcontra (by simp)
    · rw [hthU u hut] at hru hni
      exact hB.runningIsCur u hu hru hni
  · -- curMem
    exact hB.curMem
  · -- idleMem
    exact hB.idleMem
  · -- idleFlag
    simp only []
    rcases eq_or_ne s.idleThread t with hit | hit
    · have hig : (s.threads t).idle = true := by
        rw [← hit]
        exact hB.idleFlag
      rw [hit, hthT, hth2def]
      exact hig
    · rw [hthU s.idleThread hit]
      exact hB.idleFlag
  · -- curPrioEq
    simp only []
    rw [hthU s.curThread (fun hc => htc hc.symm)]
    exact hB.curPrioEq
  · -- current thread still RUNNING
    simp only []
    rw [hthU s.curThread (fun hc => htc hc.symm)]
    exact hrun
/-- The RUNNING case of `TskSetThreadPrio`: the thread is the current one;
its priority and the CCB current priority move together. -/
theorem tskSetPrio_running_inv (s : NkCcb) (newPrio : Nat) (h : SchedInv s)
    (hnp : newPrio < 64) :
    SchedInv (⟨Function.update s.threads s.curThread
        { s.threads s.curThread with priority := newPrio },
      s.tids, s.queues, s.readyMask, s.curThread, newPrio,
      s.preemptDisable, s.preemptReq, s.idleThread, s.clock⟩ : NkCcb) := by
  obtain ⟨hB, hrun⟩ := h
  set th2 : TskThreadState :=
    { s.threads s.curThread with priority := newPrio } with hth2def
  have hnoq : ∀ q, s.curThread ∉ s.queues q := by
    intro q hq
    have h3 := (hB.queueMem q s.curThread hq).2.2
    rw [hrun] at h3
    exact absurd h3 (by simp)
  have hthT : Function.update s.threads s.curThread th2 s.curThread = th2 :=
    Function.update_same _ _ _
  have hthU : ∀ u, u ≠ s.curThread →
      Function.update s.threads s.curThread th2 u = s.threads u :=
    fun u hu => Function.update_noteq hu _ _
  refine ⟨⟨?_, ?_, ?_, ?_, ?_, ?_, ?_, ?_, ?_, ?_⟩, ?_⟩
  · exact hB.maskQueues
  · intro q u hu
    simp only [] at hu ⊢
    have hune : u ≠ s.curThread := fun hc => hnoq q (hc ▸ hu)
    rw [hthU u hune]
    exact hB.queueMem q u hu
  · intro u hu hred
    simp only [] at hu hred ⊢
    rcases eq_or_ne u s.curThread with hut | hut
    · rw [hut, hthT] at hred
      have hcontra : (s.threads s.curThread).state = TskState.ready := by
        rw [hth2def] at hred
        exact hred
      rw [hrun] at hcontra
      exact absurd hcontra (by simp)
    · rw [hthU u hut] at hred ⊢
      exact hB.readyInQueue u hu hred
  · exact hB.queueNodup
  · intro u hu
    simp only [] at hu ⊢
    rcases eq_or_ne u s.curThread with hut | hut
    · rw [hut, hthT, hth2def]
      exact hnp
    · rw [hthU u hut]
      exact hB.prioBound u hu
  · intro u hu hru hni
    simp only [] at hu hru hni ⊢
    rcases eq_or_ne u s.curThread with hut | hut
    · exact hut
    · rw [hthU u hut] at hru hni
      exact hB.runningIsCur u hu hru hni
  · exact hB.curMem
  · exact hB.idleMem
  · simp only []
    rcases eq_or_ne s.idleThread s.curThread with hit | hit
    · have hig : (s.threads s.curThread).idle = true := by
        rw [← hit]
        exact hB.idleFlag
      rw [hit, hthT, hth2def]
      exact hig
    · rw [hthU s.idleThread hit]
      exact hB.idleFlag
  · simp only []
    rw [hthT, hth2def]
  · simp only []
    rw [hthT]
    have hst : th2.state = (s.threads s.curThread).state := by rw [hth2def]
    rw [hst]
    exact hrun

/-- The remaining cases of `TskSetThreadPrio` (WAITING, CREATED,
TERMINATING): a plain priority update of an unqueued, non-current
thread. -/
theorem tskSetPrio_other_inv (s : NkCcb) (t newPrio : Nat) (h : SchedInv s)
    (hnp : newPrio < 64)
    (hnr : (s.threads t).state ≠ TskState.running)
    (hnq : (s.threads t).state ≠ TskState.ready) :
    SchedInv (⟨Function.update s.threads t
        { s.threads t with priority := newPrio },
      s.tids, s.queues, s.readyMask, s.curThread, s.curPriority,
      s.preemptDisable, s.preemptReq, s.idleThread, s.clock⟩ : NkCcb) := by
  obtain ⟨hB, hrun⟩ := h
  have htc : t ≠ s.curThread := fun hc => hnr (hc ▸ hrun)
  set th2 : TskThreadState := { s.threads t with priority := newPrio }
    with hth2def
  have hnoq : ∀ q, t ∉ s.queues q := fun q hq => hnq (hB.queueMem q t hq).2.2
  have hthT : Function.update s.threads t th2 t = th2 :=
    Function.update_same _ _ _
  have hthU : ∀ u, u ≠ t → Function.update s.threads t th2 u = s.threads u :=
    fun u hu => Function.update_noteq hu _ _
  refine ⟨⟨?_, ?_, ?_, ?_, ?_, ?_, ?_, ?_, ?_, ?_⟩, ?_⟩
  · exact hB.maskQueues
  · intro q u hu
    simp only [] at hu ⊢
    have hune : u ≠ t := fun hc => hnoq q (hc ▸ hu)
    rw [hthU u hune]
    exact hB.queueMem q u hu
  · intro u hu hred
    simp only [] at hu hred ⊢
    rcases eq_or_ne u t with hut | hut
    · rw [hut, hthT] at hred
      have hcontra : (s.threads t).state = TskState.ready := by
        rw [hth2def] at hred
        exact hred
      exact absurd hcontra hnq
    · rw [hthU u hut] at hred ⊢
      exact hB.readyInQueue u hu hred
  · exact hB.queueNodup
  · intro u hu
    simp only [] at hu ⊢
    rcases eq_or_ne u t with hut | hut
    · rw [hut, hthT, hth2def]
      exact hnp
    · rw [hthU u hut]
      exact hB.prioBound u hu
  · intro u hu hru hni
    simp only [] at hu hru hni ⊢
    rcases eq_or_ne u t with hut | hut
    · rw [hut, hthT] at hru
      have hcontra : (s.threads t).state = TskState.running := by
        rw [hth2def] at hru
        exact hru
      exact absurd hcontra hnr
    · rw [hthU u hut] at hru hni
      exact hB.runningIsCur u hu hru hni
  · exact hB.curMem
  · exact hB.idleMem
  · simp only []
    rcases eq_or_ne s.idleThread t with hit | hit
    · have hig : (s.threads t).idle = true := by
        rw [← hit]
        exact hB.idleFlag
      rw [hit, hthT, hth2def]
      exact hig
    · rw [hthU s.idleThread hit]
      exact hB.idleFlag
  · simp only []
    rw [hthU s.curThread (fun hc => htc hc.symm)]
    exact hB.curPrioEq
  · simp only []
    rw [hthU s.curThread (fun hc => htc hc.symm)]
    exact hrun

/-- The `TskSetThreadPrio` retry loop preserves the scheduler invariant at
every fuel, for every sampled state. -/
theorem tskSetPrioLoop_inv (fuel : Nat) (s : NkCcb) (t newPrio : Nat)
    (st : TskState) (h : SchedInv s) (ht : t ∈ s.tids) (hnp : newPrio < 64) :
    SchedInv (tskSetPrioLoop fuel s t newPrio st) := by
  induction fuel with
  | zero => exact h
  | succ fuel ih =>
    simp only [tskSetPrioLoop]
    by_cases h1 : st = TskState.running
    · rw [if_pos h1]
      by_cases h2 : t = s.curThread
      · rw [if_neg (fun hc => hc h2)]
        subst h2
        split
        · exact tskPreemptF_inv fuel _ (tskSetPrio_running_inv s newPrio ⟨(h.1), h.2⟩ hnp)
        · exact tskSetPrio_running_inv s newPrio h hnp
      · rw [if_pos h2]
        exact ih
    · rw [if_neg h1]
      by_cases h3 : st = TskState.ready
      · rw [if_pos h3]
        by_cases h4 : (s.threads t).state = TskState.ready
        · rw [if_neg (not_not_intro h4)]
          have hlem := tskSetPrio_ready_inv s t newPrio h hnp ht h4
          split
          · rename_i hq1e
            rw [if_pos hq1e] at hlem
            split
            · exact tskPreemptF_inv fuel _ hlem
            · exact hlem
          · rename_i hq1e
            rw [if_neg hq1e] at hlem
            split
            · exact tskPreemptF_inv fuel _ hlem
            · exact hlem
        · rw [if_pos h4]
          exact ih
      · rw [if_neg h3]
        by_cases h5 : (s.threads t).state = st
        · rw [if_neg (not_not_intro h5)]
          have hnr : (s.threads t).state ≠ TskState.running := by
            rw [h5]
            exact h1
          have hnq : (s.threads t).state ≠ TskState.ready := by
            rw [h5]
            exact h3
          exact tskSetPrio_other_inv s t newPrio h hnp hnr hnq
        · rw [if_pos h5]
          exact ih

/-- `TskSetThreadPrio` preserves the scheduler invariant. -/
theorem tskSetThreadPrioF_inv (fuel : Nat) (s : NkCcb) (t newPrio : Nat)
    (h : SchedInv s) (ht : t ∈ s.tids) (hnp : newPrio < 64) :
    SchedInv (tskSetThreadPrioF fuel s t newPrio) := by
  simp only [tskSetThreadPrioF]
  split
  · exact tskSetPrioLoop_inv fuel s t newPrio _ h ht hnp
  · exact h

/-! ### C6: the admission contract of `tskReadyThread` -/

/-- A state for exercising `TskReadyThread` with preemption disabled:
the idle thread (TID 0) is current at priority 63, TID 1 is a woken
waiter of priority 10. -/
def ex6State : NkCcb :=
  ⟨fun u => if u = 0 then ⟨63, .running, true, false, 0, 6, 0, 0, 0⟩
            else ⟨10, .waiting, false, false, 0, 6, 0, 0, 0⟩,
   [0, 1], fun _ => [], 0, 0, 63, 1, false, 0, 0⟩

/-- **C6**: `TskReadyThread` (sched.c lines 53-78) admits `t` at the head
of its priority queue when it was preempted with quanta left and at the
tail otherwise, sets the ready-bitmap bit of `t`'s priority, resets the
quantum, marks `t` READY, and requests a preemption exactly when `t`'s
priority is numerically below the current priority (stated with
preemption disabled, so the deferred request is observable; `t` is not
the current thread, as a thread being readied is not running). -/
theorem tskReadyThread_admission (fuel : Nat) (s : NkCcb) (t : Nat)
    (hd : s.preemptDisable ≠ 0) (htc : t ≠ s.curThread) :
    (tskReadyThreadF fuel s t).queues (s.threads t).priority =
      (if (s.threads t).preempted = true ∧ (s.threads t).quantaLeft ≠ 0
       then t :: s.queues (s.threads t).priority
       else s.queues (s.threads t).priority ++ [t]) ∧
    (tskReadyThreadF fuel s t).readyMask.testBit (s.threads t).priority
      = true ∧
    ((tskReadyThreadF fuel s t).threads t).quantaLeft
      = (s.threads t).quantum ∧
    ((tskReadyThreadF fuel s t).threads t).state = TskState.ready ∧
    ((s.threads t).priority < s.curPriority →
      (tskReadyThreadF fuel s t).preemptReq = true) ∧
    (¬ (s.threads t).priority < s.curPriority →
      (tskReadyThreadF fuel s t).preemptReq = s.preemptReq) := by
  obtain ⟨h1, h2, h3, h4, h5, h6, h7, h8, h9, h10, h11, h12, h13⟩ :=
    tskReadyCore_facts s t
  have htcur : t ≠ (tskReadyCore s t).1.curThread := by
    rw [h1]
    exact htc
  have hbit : (tskReadyCore s t).1.readyMask.testBit
      (s.threads t).priority = true := by
    rw [h8, or_two_pow_testBit]
    simp
  simp only [tskReadyThreadF, tskReadyThreadGo]
  split
  · -- the preemption test passed: `tskPreempt` defers the request
    rename_i hc
    have hplt : (s.threads t).priority < s.curPriority := by
      rw [h9] at hc
      exact of_decide_eq_true hc
    simp only [tskPreemptGo, setThread]
    have hpd : ({ (tskReadyCore s t).1 with
        threads := Function.update (tskReadyCore s t).1.threads
          (tskReadyCore s t).1.curThread
          { (tskReadyCore s t).1.threads (tskReadyCore s t).1.curThread with
            preempted := true } } : NkCcb).preemptDisable ≠ 0 := by
      show (tskReadyCore s t).1.preemptDisable ≠ 0
      rw [h5]
      exact hd
    rw [if_pos hpd]
    refine ⟨?_, ?_, ?_, ?_, ?_, ?_⟩
    · simp only []
      exact h13
    · simp only []
      exact hbit
    · simp only []
      rw [Function.update_noteq htcur, h10]
    · simp only []
      rw [Function.update_noteq htcur, h10]
    · intro _
      rfl
    · intro hge
      exact absurd hplt hge
  · -- no preemption: the admitted state is returned directly
    rename_i hc
    have hfalse : (tskReadyCore s t).2 = false := by
      revert hc
      cases (tskReadyCore s t).2
      · intro _
        rfl
      · intro hc
        exact absurd rfl hc
    have hnlt : ¬ (s.threads t).priority < s.curPriority := by
      have hdec : decide ((s.threads t).priority < s.curPriority) = false := by
        rw [← h9]
        exact hfalse
      exact of_decide_eq_false hdec
    refine ⟨h13, hbit, ?_, ?_, ?_, ?_⟩
    · rw [h10]
    · rw [h10]
    · intro hlt
      exact absurd hlt hnlt
    · intro _
      exact h6

/-- C6 witness: the contract evaluated at a concrete admission (TID 1,
priority 10, never preempted) with preemption disabled. -/
theorem tskReadyThread_admission_witness :
    ex6State.preemptDisable ≠ 0 ∧ (1 : Nat) ≠ ex6State.curThread ∧
    ((tskReadyThreadF 2 ex6State 1).queues (ex6State.threads 1).priority =
      (if (ex6State.threads 1).preempted = true ∧
          (ex6State.threads 1).quantaLeft ≠ 0
       then 1 :: ex6State.queues (ex6State.threads 1).priority
       else ex6State.queues (ex6State.threads 1).priority ++ [1]) ∧
     (tskReadyThreadF 2 ex6State 1).readyMask.testBit
       (ex6State.threads 1).priority = true ∧
     ((tskReadyThreadF 2 ex6State 1).threads 1).quantaLeft
       = (ex6State.threads 1).quantum ∧
     ((tskReadyThreadF 2 ex6State 1).threads 1).state = TskState.ready ∧
     ((ex6State.threads 1).priority < ex6State.curPriority →
       (tskReadyThreadF 2 ex6State 1).preemptReq = true) ∧
     (¬ (ex6State.threads 1).priority < ex6State.curPriority →
       (tskReadyThreadF 2 ex6State 1).preemptReq = ex6State.preemptReq)) :=
  ⟨by decide, by decide,
   tskReadyThread_admission 2 ex6State 1 (by decide) (by decide)⟩

/-! ### C8: the scheduler-state invariant -/

/-- The invariant in the words of the spec (§8): the run-queue bitmap has
bit `p` set exactly when ready queue `p` is non-empty, and at most one
thread is in state RUNNING — phrased as "every RUNNING thread equals
`ccb.curThread`".  Bounded to the 64 bitmap priorities so it is decidable
on concrete states. -/
def specRunQueueInvariant (s : NkCcb) : Prop :=
  (∀ p < 64, (s.readyMask.testBit p ↔ s.queues p ≠ [])) ∧
  (∀ u ∈ s.tids, (s.threads u).state = TskState.running → u = s.curThread)

instance specRunQueueInvariantDec (s : NkCcb) :
    Decidable (specRunQueueInvariant s) :=
  inferInstanceAs (Decidable
    ((∀ p < 64, (s.readyMask.testBit p ↔ s.queues p ≠ [])) ∧
     (∀ u ∈ s.tids, (s.threads u).state = TskState.running →
       u = s.curThread)))

/-- A boundary state: the idle thread (TID 0) is current and RUNNING at
priority 63; TID 1 is a priority-10 waiter about to be readied. -/
def ex8State : NkCcb :=
  ⟨fun u => if u = 0 then ⟨63, .running, true, false, 0, 6, 0, 0, 0⟩
            else ⟨10, .waiting, false, false, 0, 6, 0, 0, 0⟩,
   [0, 1], fun _ => [], 0, 0, 63, 0, false, 0, 0⟩

/-- C8 counterexample: readying TID 1 preempts the idle thread, which
keeps state RUNNING while TID 1 becomes current and RUNNING — after one
`TskReadyThread` two threads are RUNNING, so the claim's "at most one
thread is in state RUNNING, and it is `ccb.curThread`" is not preserved
(`tskStopThread`, sched.c line 90, re-admits only non-idle threads and
never downgrades the idle thread's state). -/
theorem schedule_second_running_idle :
    specRunQueueInvariant ex8State ∧
    ¬ specRunQueueInvariant (tskReadyThreadF 2 ex8State 1) ∧
    ((tskReadyThreadF 2 ex8State 1).threads 0).state = TskState.running ∧
    ((tskReadyThreadF 2 ex8State 1).threads 1).state = TskState.running ∧
    (tskReadyThreadF 2 ex8State 1).curThread = 1 := by decide

/-- **C8** (amended): every scheduler operation — `TskReadyThread` on a
live thread that is neither RUNNING nor READY, `tskSchedule`, and
`TskSetThreadPrio` to a bitmap priority — preserves the invariant
`SchedInv`: the ready bitmap has bit `p` set exactly when ready queue `p`
is non-empty, every queued thread is live, READY and on its priority's
queue, every RUNNING **non-idle** thread is the one stored in
`ccb.curThread`, and the current thread is RUNNING.  (The idle thread may
retain state RUNNING while not current, so the spec's "at most one
thread RUNNING" holds only with the idle thread exempted.) -/
theorem schedOps_preserve_inv (fuel : Nat) (s : NkCcb) (t newPrio : Nat)
    (h : SchedInv s) (ht : t ∈ s.tids)
    (hnr : (s.threads t).state ≠ TskState.running)
    (hnq : (s.threads t).state ≠ TskState.ready)
    (hnp : newPrio < 64) :
    SchedInv (tskReadyThreadF fuel s t) ∧
    SchedInv (tskScheduleF fuel s) ∧
    SchedInv (tskSetThreadPrioF fuel s t newPrio) :=
  ⟨tskReadyThreadF_inv fuel s t h ht hnr hnq,
   tskScheduleF_inv fuel s h,
   tskSetThreadPrioF_inv fuel s t newPrio h ht hnp⟩

/-- C8 witness: the three operations applied at the boundary state (ready
TID 1, schedule, and move TID 1 to priority 5) all preserve `SchedInv`. -/
theorem schedOps_preserve_inv_witness :
    SchedInv ex8State ∧ (1 : Nat) ∈ ex8State.tids ∧
    (ex8State.threads 1).state ≠ TskState.running ∧
    (ex8State.threads 1).state ≠ TskState.ready ∧ (5 : Nat) < 64 ∧
    (SchedInv (tskReadyThreadF 2 ex8State 1) ∧
     SchedInv (tskScheduleF 2 ex8State) ∧
     SchedInv (tskSetThreadPrioF 2 ex8State 1 5)) := by
  have hInv : SchedInv ex8State := by
    refine ⟨⟨?_, ?_, by decide, ?_, by decide, by decide, by decide,
      by decide, by decide, by decide⟩, by decide⟩
    · intro p
      simp [ex8State]
    · intro p u hu
      simp [ex8State] at hu
    · intro p
      simp [ex8State]
  exact ⟨hInv, by decide, by decide, by decide, by decide,
    schedOps_preserve_inv 2 ex8State 1 5 hInv (by decide) (by decide)
      (by decide) (by decide)⟩

end NexNix
